import Mathlib

/-!
# CookingSecrets backend: shallow embedding and verification

A shallow embedding of the persistence layer of `src/backend/server.py`
(a FastAPI + MongoDB social recipe backend).  Each Mongo collection is a
Lean list of records, and each endpoint body becomes a function from the
database state to `Except ApiError (state × result)`.  The Mongo
primitives `find_one`, `delete_one`, `update_one`, `delete_many`,
`insert_one` and `count_documents` are modelled on lists with
first-match semantics.  Document ids (uuid4 in the source) are modelled
as natural numbers generated freshly with respect to every id-valued
field currently stored.
-/

namespace CookingSecrets

/-! ## Mongo-style list primitives -/

/-- `find_one(filter)`: the first element satisfying `p`, if any. -/
def findOne (p : α → Bool) : List α → Option α
  | [] => none
  | x :: xs => if p x then some x else findOne p xs

/-- `delete_one(filter)`: remove the first element satisfying `p`. -/
def deleteOne (p : α → Bool) : List α → List α
  | [] => []
  | x :: xs => if p x then xs else x :: deleteOne p xs

/-- `update_one(filter, update)`: apply `f` to the first element satisfying `p`. -/
def updateOne (p : α → Bool) (f : α → α) : List α → List α
  | [] => []
  | x :: xs => if p x then f x :: xs else x :: updateOne p f xs

/-- `delete_many(filter)`: remove every element satisfying `p`. -/
def deleteMany (p : α → Bool) (l : List α) : List α :=
  l.filter (fun x => ! p x)

/-- `insert_one(doc)`: append at the end (oldest first, as Mongo's natural order). -/
def insertOne (x : α) (l : List α) : List α :=
  l ++ [x]

/-- `count_documents(filter)`. -/
def countDocs (p : α → Bool) (l : List α) : Nat :=
  (l.filter p).length

/-! ## Data model (the pydantic models of `server.py`)

Document ids (uuid4 strings in the source) are modelled as `Nat`;
timestamps (`datetime.utcnow()`) as `Nat`; the `price`/`amount` floats
carry no arithmetic in the embedded endpoints (they are only copied or
replaced by `0.0`), so they are modelled as `Int`.  Counter fields use
`Int`, since Mongo's `$inc` decrements are unconditional. -/

structure Ingredient where
  name : String
  amount : String
  unit : String
deriving DecidableEq, Repr

structure CookingStep where
  step_number : Int
  instruction : String
  duration_minutes : Option Int
deriving DecidableEq, Repr

structure UserCreate where
  email : String
  username : String
  full_name : String
  password : String
deriving DecidableEq, Repr

structure User where
  id : Nat
  email : String
  username : String
  full_name : String
  password_hash : String
  role : String
  bio : String
  profile_image : Option String
  followers_count : Int
  following_count : Int
  recipes_count : Int
  created_at : Nat
  is_active : Bool
deriving DecidableEq, Repr

structure RecipeCreate where
  title : String
  description : String
  image : String
  ingredients : List Ingredient
  steps : List CookingStep
  cooking_time_minutes : Int
  servings : Int
  difficulty : String
  category : String
  tags : List String
  is_paid : Bool
  price : Int
deriving DecidableEq, Repr

structure Recipe where
  id : Nat
  author_id : Nat
  author_username : String
  author_profile_image : Option String
  author_role : String
  title : String
  description : String
  image : String
  ingredients : List Ingredient
  steps : List CookingStep
  cooking_time_minutes : Int
  servings : Int
  difficulty : String
  category : String
  tags : List String
  likes_count : Int
  comments_count : Int
  saves_count : Int
  is_featured : Bool
  is_approved : Bool
  is_paid : Bool
  price : Int
  created_at : Nat
  updated_at : Nat
deriving DecidableEq, Repr

structure Comment where
  id : Nat
  recipe_id : Nat
  user_id : Nat
  username : String
  user_profile_image : Option String
  text : String
  created_at : Nat
deriving DecidableEq, Repr

structure Like where
  id : Nat
  recipe_id : Nat
  user_id : Nat
  created_at : Nat
deriving DecidableEq, Repr

structure Save where
  id : Nat
  recipe_id : Nat
  user_id : Nat
  created_at : Nat
deriving DecidableEq, Repr

structure Follow where
  id : Nat
  follower_id : Nat
  following_id : Nat
  created_at : Nat
deriving DecidableEq, Repr

structure Purchase where
  id : Nat
  user_id : Nat
  recipe_id : Nat
  amount : Int
  created_at : Nat
deriving DecidableEq, Repr

/-- The document store: one list per Mongo collection used by the
embedded endpoints. -/
structure DB where
  users : List User
  recipes : List Recipe
  comments : List Comment
  likes : List Like
  saves : List Save
  follows : List Follow
  purchases : List Purchase
deriving DecidableEq, Repr

def DB.empty : DB := ⟨[], [], [], [], [], [], []⟩

/-! ## Fresh id generation

`uuid.uuid4()` produces an identifier distinct from every identifier
that has ever entered the store (including client-supplied ids stored
inside relation rows).  We model this by taking one more than the
maximum of every id-valued field present in the state. -/

/-- Every id-valued field occurring anywhere in the store. -/
def allIds (db : DB) : List Nat :=
  db.users.map User.id
    ++ db.recipes.map Recipe.id ++ db.recipes.map Recipe.author_id
    ++ db.comments.map Comment.id ++ db.comments.map Comment.recipe_id
    ++ db.comments.map Comment.user_id
    ++ db.likes.map Like.id ++ db.likes.map Like.recipe_id ++ db.likes.map Like.user_id
    ++ db.saves.map Save.id ++ db.saves.map Save.recipe_id ++ db.saves.map Save.user_id
    ++ db.follows.map Follow.id ++ db.follows.map Follow.follower_id
    ++ db.follows.map Follow.following_id
    ++ db.purchases.map Purchase.id ++ db.purchases.map Purchase.user_id
    ++ db.purchases.map Purchase.recipe_id

/-- A fresh identifier: strictly larger than every stored id. -/
def freshId (db : DB) : Nat :=
  (allIds db).foldr max 0 + 1

/-! ## Errors and results -/

/-- An `HTTPException(status_code, detail)`. -/
structure ApiError where
  status : Nat
  detail : String
deriving DecidableEq, Repr

/-- The result of a mutating endpoint: an error, or the new store
together with the response payload. -/
abbrev Res (α : Type) := Except ApiError (DB × α)

/-- `bcrypt.hashpw`: one-way salted hash, modelled abstractly (no
embedded claim depends on its value, only on its being stored). -/
def hash_password (password : String) : String :=
  "$2b$12$" ++ password

/-! ## Endpoint bodies (translated from `src/backend/server.py`) -/

/-- `get_current_user`: resolve the authenticated user id (the decoded
token payload) to its user document; 404 if the subject is missing. -/
def get_current_user (db : DB) (uid : Nat) : Except ApiError User :=
  match findOne (fun u => u.id == uid) db.users with
  | none => .error ⟨404, "User not found"⟩
  | some u => .ok u

/-- `POST /auth/register`. -/
def register (db : DB) (data : UserCreate) (now : Nat) : Res User :=
  match findOne (fun u => u.email == data.email) db.users with
  | some _ => .error ⟨400, "Email already registered"⟩
  | none =>
  match findOne (fun u => u.username == data.username) db.users with
  | some _ => .error ⟨400, "Username already taken"⟩
  | none =>
    let user_count := countDocs (fun _ => true) db.users
    let user : User :=
      { id := freshId db
        email := data.email
        username := data.username
        full_name := data.full_name
        password_hash := hash_password data.password
        role := if user_count == 0 then "admin" else "user"
        bio := ""
        profile_image := none
        followers_count := 0
        following_count := 0
        recipes_count := 0
        created_at := now
        is_active := true }
    .ok ({ db with users := insertOne user db.users }, user)

/-- `POST /recipes`. -/
def create_recipe (db : DB) (uid : Nat) (data : RecipeCreate) (now : Nat) : Res Recipe :=
  match get_current_user db uid with
  | .error e => .error e
  | .ok cu =>
    let recipe : Recipe :=
      { id := freshId db
        author_id := cu.id
        author_username := cu.username
        author_profile_image := cu.profile_image
        author_role := cu.role
        title := data.title
        description := data.description
        image := data.image
        ingredients := data.ingredients
        steps := data.steps
        cooking_time_minutes := data.cooking_time_minutes
        servings := data.servings
        difficulty := data.difficulty
        category := data.category
        tags := data.tags
        likes_count := 0
        comments_count := 0
        saves_count := 0
        is_featured := cu.role == "chef"
        is_approved := true
        is_paid := data.is_paid
        price := if data.is_paid then data.price else 0
        created_at := now
        updated_at := now }
    let db1 := { db with recipes := insertOne recipe db.recipes }
    let db2 := { db1 with
      users := updateOne (fun u => u.id == cu.id)
        (fun u => { u with recipes_count := u.recipes_count + 1 }) db1.users }
    .ok (db2, recipe)

/-- `GET /recipes/{recipe_id}`. -/
def get_recipe (db : DB) (rid : Nat) : Except ApiError Recipe :=
  match findOne (fun r => r.id == rid) db.recipes with
  | none => .error ⟨404, "Recipe not found"⟩
  | some r => .ok r

/-- The `$set` document built in `update_recipe`: every `RecipeCreate`
payload field plus `updated_at`. -/
def applyRecipeUpdate (data : RecipeCreate) (now : Nat) (r : Recipe) : Recipe :=
  { r with
    title := data.title
    description := data.description
    image := data.image
    ingredients := data.ingredients
    steps := data.steps
    cooking_time_minutes := data.cooking_time_minutes
    servings := data.servings
    difficulty := data.difficulty
    category := data.category
    tags := data.tags
    is_paid := data.is_paid
    price := data.price
    updated_at := now }

/-- `PUT /recipes/{recipe_id}`: `$set` of the `RecipeCreate` payload
fields plus `updated_at`, after the inline ownership/role check. -/
def update_recipe (db : DB) (uid rid : Nat) (data : RecipeCreate) (now : Nat) : Res Recipe :=
  match get_current_user db uid with
  | .error e => .error e
  | .ok cu =>
  match findOne (fun r => r.id == rid) db.recipes with
  | none => .error ⟨404, "Recipe not found"⟩
  | some recipe =>
    if recipe.author_id != cu.id && !(cu.role == "admin" || cu.role == "moderator") then
      .error ⟨403, "Not authorized to edit this recipe"⟩
    else
      let db1 := { db with
        recipes := updateOne (fun r => r.id == rid) (applyRecipeUpdate data now) db.recipes }
      match findOne (fun r => r.id == rid) db1.recipes with
      | none => .error ⟨404, "Recipe not found"⟩
      | some updated => .ok (db1, updated)

/-- `DELETE /recipes/{recipe_id}`. -/
def delete_recipe (db : DB) (uid rid : Nat) : Res String :=
  match get_current_user db uid with
  | .error e => .error e
  | .ok cu =>
  match findOne (fun r => r.id == rid) db.recipes with
  | none => .error ⟨404, "Recipe not found"⟩
  | some recipe =>
    if recipe.author_id != cu.id && !(cu.role == "admin" || cu.role == "moderator") then
      .error ⟨403, "Not authorized to delete this recipe"⟩
    else
      let db1 := { db with
        recipes := deleteOne (fun r => r.id == rid) db.recipes
        comments := deleteMany (fun c => c.recipe_id == rid) db.comments
        likes := deleteMany (fun l => l.recipe_id == rid) db.likes
        saves := deleteMany (fun s => s.recipe_id == rid) db.saves }
      let db2 := { db1 with
        users := updateOne (fun u => u.id == recipe.author_id)
          (fun u => { u with recipes_count := u.recipes_count - 1 }) db1.users }
      .ok (db2, "Recipe deleted successfully")

/-- `POST /recipes/{recipe_id}/like`. -/
def like_recipe (db : DB) (uid rid : Nat) (now : Nat) : Res (Bool × String) :=
  match get_current_user db uid with
  | .error e => .error e
  | .ok cu =>
  match findOne (fun l => l.recipe_id == rid && l.user_id == cu.id) db.likes with
  | some existing =>
      let db1 := { db with likes := deleteOne (fun l => l.id == existing.id) db.likes }
      let db2 := { db1 with
        recipes := updateOne (fun r => r.id == rid)
          (fun r => { r with likes_count := r.likes_count - 1 }) db1.recipes }
      .ok (db2, (false, "Recipe unliked"))
  | none =>
      let lk : Like := { id := freshId db, recipe_id := rid, user_id := cu.id, created_at := now }
      let db1 := { db with likes := insertOne lk db.likes }
      let db2 := { db1 with
        recipes := updateOne (fun r => r.id == rid)
          (fun r => { r with likes_count := r.likes_count + 1 }) db1.recipes }
      .ok (db2, (true, "Recipe liked"))

/-- `POST /recipes/{recipe_id}/save`. -/
def save_recipe (db : DB) (uid rid : Nat) (now : Nat) : Res (Bool × String) :=
  match get_current_user db uid with
  | .error e => .error e
  | .ok cu =>
  match findOne (fun s => s.recipe_id == rid && s.user_id == cu.id) db.saves with
  | some existing =>
      let db1 := { db with saves := deleteOne (fun s => s.id == existing.id) db.saves }
      let db2 := { db1 with
        recipes := updateOne (fun r => r.id == rid)
          (fun r => { r with saves_count := r.saves_count - 1 }) db1.recipes }
      .ok (db2, (false, "Recipe unsaved"))
  | none =>
      let sv : Save := { id := freshId db, recipe_id := rid, user_id := cu.id, created_at := now }
      let db1 := { db with saves := insertOne sv db.saves }
      let db2 := { db1 with
        recipes := updateOne (fun r => r.id == rid)
          (fun r => { r with saves_count := r.saves_count + 1 }) db1.recipes }
      .ok (db2, (true, "Recipe saved"))

/-- `POST /recipes/{recipe_id}/comments`: no existence check on the
recipe; the counter `$inc` simply matches zero documents when the
recipe is absent. -/
def create_comment (db : DB) (uid rid : Nat) (text : String) (now : Nat) : Res Comment :=
  match get_current_user db uid with
  | .error e => .error e
  | .ok cu =>
    let c : Comment :=
      { id := freshId db
        recipe_id := rid
        user_id := cu.id
        username := cu.username
        user_profile_image := cu.profile_image
        text := text
        created_at := now }
    let db1 := { db with comments := insertOne c db.comments }
    let db2 := { db1 with
      recipes := updateOne (fun r => r.id == rid)
        (fun r => { r with comments_count := r.comments_count + 1 }) db1.recipes }
    .ok (db2, c)

/-- `DELETE /comments/{comment_id}`. -/
def delete_comment (db : DB) (uid cid : Nat) : Res String :=
  match get_current_user db uid with
  | .error e => .error e
  | .ok cu =>
  match findOne (fun c => c.id == cid) db.comments with
  | none => .error ⟨404, "Comment not found"⟩
  | some comment =>
    if comment.user_id != cu.id && !(cu.role == "admin" || cu.role == "moderator") then
      .error ⟨403, "Not authorized to delete this comment"⟩
    else
      let db1 := { db with comments := deleteOne (fun c => c.id == cid) db.comments }
      let db2 := { db1 with
        recipes := updateOne (fun r => r.id == comment.recipe_id)
          (fun r => { r with comments_count := r.comments_count - 1 }) db1.recipes }
      .ok (db2, "Comment deleted successfully")

/-- `POST /users/{user_id}/follow`. -/
def follow_user (db : DB) (uid target : Nat) (now : Nat) : Res (Bool × String) :=
  match get_current_user db uid with
  | .error e => .error e
  | .ok cu =>
    if target == cu.id then
      .error ⟨400, "Cannot follow yourself"⟩
    else
      match findOne (fun f => f.follower_id == cu.id && f.following_id == target) db.follows with
      | some existing =>
          let db1 := { db with follows := deleteOne (fun f => f.id == existing.id) db.follows }
          let db2 := { db1 with
            users := updateOne (fun u => u.id == cu.id)
              (fun u => { u with following_count := u.following_count - 1 }) db1.users }
          let db3 := { db2 with
            users := updateOne (fun u => u.id == target)
              (fun u => { u with followers_count := u.followers_count - 1 }) db2.users }
          .ok (db3, (false, "Unfollowed"))
      | none =>
          let fl : Follow :=
            { id := freshId db, follower_id := cu.id, following_id := target, created_at := now }
          let db1 := { db with follows := insertOne fl db.follows }
          let db2 := { db1 with
            users := updateOne (fun u => u.id == cu.id)
              (fun u => { u with following_count := u.following_count + 1 }) db1.users }
          let db3 := { db2 with
            users := updateOne (fun u => u.id == target)
              (fun u => { u with followers_count := u.followers_count + 1 }) db2.users }
          .ok (db3, (true, "Following"))

/-- `POST /recipes/{recipe_id}/purchase`. -/
def purchase_recipe (db : DB) (uid rid : Nat) (now : Nat) : Res (Bool × String) :=
  match get_current_user db uid with
  | .error e => .error e
  | .ok cu =>
  match findOne (fun r => r.id == rid) db.recipes with
  | none => .error ⟨404, "Recipe not found"⟩
  | some recipe =>
    if !recipe.is_paid then
      .error ⟨400, "This recipe is free"⟩
    else
      match findOne (fun p => p.user_id == cu.id && p.recipe_id == rid) db.purchases with
      | some _ => .ok (db, (true, "Already purchased"))
      | none =>
          let pr : Purchase :=
            { id := freshId db, user_id := cu.id, recipe_id := rid
              amount := recipe.price, created_at := now }
          .ok ({ db with purchases := insertOne pr db.purchases }, (true, "Recipe purchased successfully"))

/-- The ownership/authorization predicate the spec calls `canMutate`:
the contrapositive of the denial condition written inline (identically)
in `update_recipe`, `delete_recipe` and `delete_comment`. -/
def canMutate (actor : User) (resourceOwnerId : Nat) : Bool :=
  actor.id == resourceOwnerId || actor.role == "admin" || actor.role == "moderator"

/-! ## The operation alphabet of claim C1 -/

inductive Op where
  | opRegister (data : UserCreate) (now : Nat)
  | opCreateRecipe (uid : Nat) (data : RecipeCreate) (now : Nat)
  | opUpdateRecipe (uid rid : Nat) (data : RecipeCreate) (now : Nat)
  | opDeleteRecipe (uid rid : Nat)
  | opLike (uid rid now : Nat)
  | opSave (uid rid now : Nat)
  | opFollow (uid target now : Nat)
  | opCreateComment (uid rid : Nat) (text : String) (now : Nat)
  | opDeleteComment (uid cid : Nat)
deriving DecidableEq, Repr

/-- The store after an endpoint call: an HTTP error leaves it unchanged. -/
def stateOf {α : Type} (db : DB) : Res α → DB
  | .error _ => db
  | .ok (db', _) => db'

def applyOp (db : DB) : Op → DB
  | .opRegister data now => stateOf db (register db data now)
  | .opCreateRecipe uid data now => stateOf db (create_recipe db uid data now)
  | .opUpdateRecipe uid rid data now => stateOf db (update_recipe db uid rid data now)
  | .opDeleteRecipe uid rid => stateOf db (delete_recipe db uid rid)
  | .opLike uid rid now => stateOf db (like_recipe db uid rid now)
  | .opSave uid rid now => stateOf db (save_recipe db uid rid now)
  | .opFollow uid target now => stateOf db (follow_user db uid target now)
  | .opCreateComment uid rid text now => stateOf db (create_comment db uid rid text now)
  | .opDeleteComment uid cid => stateOf db (delete_comment db uid cid)

def runOps (db : DB) (ops : List Op) : DB :=
  ops.foldl applyOp db

/-! ## The denormalized-counter invariant and store well-formedness -/

/-- Number of Like rows referencing recipe `rid`. -/
def likeRows (db : DB) (rid : Nat) : Nat :=
  countDocs (fun l => l.recipe_id == rid) db.likes

/-- Number of Comment rows referencing recipe `rid`. -/
def commentRows (db : DB) (rid : Nat) : Nat :=
  countDocs (fun c => c.recipe_id == rid) db.comments

/-- Number of Save rows referencing recipe `rid`. -/
def saveRows (db : DB) (rid : Nat) : Nat :=
  countDocs (fun s => s.recipe_id == rid) db.saves

/-- Number of Follow rows with `following_id = uid` (followers of `uid`). -/
def followerRows (db : DB) (uid : Nat) : Nat :=
  countDocs (fun f => f.following_id == uid) db.follows

/-- Number of Follow rows with `follower_id = uid` (users `uid` follows). -/
def followingRows (db : DB) (uid : Nat) : Nat :=
  countDocs (fun f => f.follower_id == uid) db.follows

/-- Number of Recipe rows owned by `uid`. -/
def ownedRecipeRows (db : DB) (uid : Nat) : Nat :=
  countDocs (fun r => r.author_id == uid) db.recipes

/-- Claim C1's invariant: every stored denormalized counter equals the
cardinality of the matching relation rows. -/
def countersConsistent (db : DB) : Prop :=
  (∀ r ∈ db.recipes,
      r.likes_count = (likeRows db r.id : Int) ∧
      r.comments_count = (commentRows db r.id : Int) ∧
      r.saves_count = (saveRows db r.id : Int)) ∧
  (∀ u ∈ db.users,
      u.followers_count = (followerRows db u.id : Int) ∧
      u.following_count = (followingRows db u.id : Int) ∧
      u.recipes_count = (ownedRecipeRows db u.id : Int))

/-- Well-formedness: document ids are unique within each collection
(uuid4 uniqueness). -/
def idsNodup (db : DB) : Prop :=
  (db.users.map User.id).Nodup ∧
  (db.recipes.map Recipe.id).Nodup ∧
  (db.comments.map Comment.id).Nodup ∧
  (db.likes.map Like.id).Nodup ∧
  (db.saves.map Save.id).Nodup ∧
  (db.follows.map Follow.id).Nodup ∧
  (db.purchases.map Purchase.id).Nodup

/-- The inductive invariant for claim C1. -/
def Inv (db : DB) : Prop :=
  countersConsistent db ∧ idsNodup db

/-! ## Concrete sample data for witnesses -/

def wAlice : User :=
  { id := 1, email := "alice@example.com", username := "alice", full_name := "Alice A"
    password_hash := "$2b$12$pw", role := "user", bio := "", profile_image := none
    followers_count := 0, following_count := 0, recipes_count := 1
    created_at := 0, is_active := true }

def wBob : User :=
  { id := 4, email := "bob@example.com", username := "bob", full_name := "Bob B"
    password_hash := "$2b$12$pw", role := "user", bio := "", profile_image := none
    followers_count := 0, following_count := 0, recipes_count := 0
    created_at := 0, is_active := true }

def wRecipe : Recipe :=
  { id := 2, author_id := 1, author_username := "alice", author_profile_image := none
    author_role := "user", title := "Toast", description := "Bread", image := "img"
    ingredients := [], steps := [], cooking_time_minutes := 5, servings := 1
    difficulty := "easy", category := "Breakfast", tags := []
    likes_count := 0, comments_count := 1, saves_count := 0
    is_featured := false, is_approved := true, is_paid := false, price := 0
    created_at := 0, updated_at := 0 }

def wComment : Comment :=
  { id := 3, recipe_id := 2, user_id := 1, username := "alice"
    user_profile_image := none, text := "nice", created_at := 0 }

def wData : RecipeCreate :=
  { title := "Toast v2", description := "Better bread", image := "img2"
    ingredients := [], steps := [], cooking_time_minutes := 7, servings := 2
    difficulty := "easy", category := "Breakfast", tags := []
    is_paid := false, price := 0 }

def wDB : DB :=
  { users := [wAlice, wBob], recipes := [wRecipe], comments := [wComment]
    likes := [], saves := [], follows := [], purchases := [] }

/-! ## Claim C2: toggling an even number of times restores the observation -/

/-- The observation of the like toggle: presence of the (actor, recipe)
Like row, and the recipe's stored likes_count (if the recipe exists). -/
def obsLike (db : DB) (uid rid : Nat) : Bool × Option Int :=
  ((findOne (fun l => l.recipe_id == rid && l.user_id == uid) db.likes).isSome,
   (findOne (fun r => r.id == rid) db.recipes).map Recipe.likes_count)

/-- The observation of the save toggle. -/
def obsSave (db : DB) (uid rid : Nat) : Bool × Option Int :=
  ((findOne (fun s => s.recipe_id == rid && s.user_id == uid) db.saves).isSome,
   (findOne (fun r => r.id == rid) db.recipes).map Recipe.saves_count)

/-- The observation of the follow toggle: presence of the Follow row,
the actor's following_count and the target's followers_count. -/
def obsFollow (db : DB) (uid target : Nat) : Bool × Option Int × Option Int :=
  ((findOne (fun f => f.follower_id == uid && f.following_id == target) db.follows).isSome,
   (findOne (fun u => u.id == uid) db.users).map User.following_count,
   (findOne (fun u => u.id == target) db.users).map User.followers_count)

def runLikes (uid rid : Nat) (ts : List Nat) (db : DB) : DB :=
  ts.foldl (fun d t => applyOp d (.opLike uid rid t)) db

def runSaves (uid rid : Nat) (ts : List Nat) (db : DB) : DB :=
  ts.foldl (fun d t => applyOp d (.opSave uid rid t)) db

def runFollows (uid target : Nat) (ts : List Nat) (db : DB) : DB :=
  ts.foldl (fun d t => applyOp d (.opFollow uid target t)) db

/-- A paid recipe for witness data. -/
def wPaidRecipe : Recipe :=
  { id := 5, author_id := 1, author_username := "alice", author_profile_image := none
    author_role := "user", title := "Secret", description := "Paid", image := "img"
    ingredients := [], steps := [], cooking_time_minutes := 30, servings := 2
    difficulty := "hard", category := "Dinner", tags := []
    likes_count := 0, comments_count := 0, saves_count := 0
    is_featured := false, is_approved := true, is_paid := true, price := 3
    created_at := 0, updated_at := 0 }

def wDBP : DB :=
  { users := [wAlice, wBob], recipes := [wPaidRecipe], comments := []
    likes := [], saves := [], follows := [], purchases := [] }

/-! ## Claim C6: deleteComment and missing parent recipes (corrected) -/

/-- An orphan comment whose parent recipe is absent. -/
def cOrphan : Comment :=
  { id := 11, recipe_id := 42, user_id := 1, username := "alice"
    user_profile_image := none, text := "orphan", created_at := 0 }

def cDB : DB :=
  { users := [wAlice], recipes := [], comments := [cOrphan]
    likes := [], saves := [], follows := [], purchases := [] }

theorem findOne_eq_some_mem {p : α → Bool} {l : List α} {a : α}
    (h : findOne p l = some a) : a ∈ l ∧ p a = true := by
  induction l with
  | nil => simp [findOne] at h
  | cons x xs ih =>
    by_cases hx : p x
    · simp [findOne, hx] at h
      subst h
      exact ⟨List.mem_cons_self x xs, hx⟩
    · simp [findOne, hx] at h
      rcases ih h with ⟨hmem, hp⟩
      exact ⟨List.mem_cons_of_mem x hmem, hp⟩

theorem findOne_eq_none_iff {p : α → Bool} {l : List α} :
    findOne p l = none ↔ ∀ a ∈ l, p a = false := by
  induction l with
  | nil => simp [findOne]
  | cons x xs ih =>
    by_cases hx : p x = true
    · simp [findOne, hx]
    · have hx' : p x = false := by simpa using hx
      simp [findOne, hx', ih]

/-- Splitting lemma: a successful `findOne` splits the list at the first match. -/
theorem findOne_eq_some_split {p : α → Bool} {l : List α} {a : α}
    (h : findOne p l = some a) :
    ∃ l₁ l₂, l = l₁ ++ a :: l₂ ∧ (∀ x ∈ l₁, p x = false) ∧ p a = true := by
  induction l with
  | nil => simp [findOne] at h
  | cons x xs ih =>
    by_cases hx : p x
    · simp [findOne, hx] at h
      subst h
      exact ⟨[], xs, by simp, by simp, hx⟩
    · simp [findOne, hx] at h
      rcases ih h with ⟨l₁, l₂, heq, hl₁, hpa⟩
      refine ⟨x :: l₁, l₂, by simp [heq], ?_, hpa⟩
      intro y hy
      rcases List.mem_cons.mp hy with hxy | hyl
      · subst hxy; simpa using hx
      · exact hl₁ y hyl

theorem deleteOne_of_split {p : α → Bool} {l₁ l₂ : List α} {a : α}
    (hl₁ : ∀ x ∈ l₁, p x = false) (hpa : p a = true) :
    deleteOne p (l₁ ++ a :: l₂) = l₁ ++ l₂ := by
  induction l₁ with
  | nil => simp [deleteOne, hpa]
  | cons x xs ih =>
    have hx : p x = false := hl₁ x (List.mem_cons_self x xs)
    simp [deleteOne, hx]
    exact ih (fun y hy => hl₁ y (List.mem_cons_of_mem x hy))

theorem updateOne_of_split {p : α → Bool} {f : α → α} {l₁ l₂ : List α} {a : α}
    (hl₁ : ∀ x ∈ l₁, p x = false) (hpa : p a = true) :
    updateOne p f (l₁ ++ a :: l₂) = l₁ ++ f a :: l₂ := by
  induction l₁ with
  | nil => simp [updateOne, hpa]
  | cons x xs ih =>
    have hx : p x = false := hl₁ x (List.mem_cons_self x xs)
    simp [updateOne, hx]
    exact ih (fun y hy => hl₁ y (List.mem_cons_of_mem x hy))

theorem updateOne_of_none {p : α → Bool} {f : α → α} {l : List α}
    (h : findOne p l = none) : updateOne p f l = l := by
  induction l with
  | nil => rfl
  | cons x xs ih =>
    by_cases hx : p x
    · simp [findOne, hx] at h
    · simp [findOne, hx] at h
      simp [updateOne, hx, ih h]

theorem countDocs_append (p : α → Bool) (l₁ l₂ : List α) :
    countDocs p (l₁ ++ l₂) = countDocs p l₁ + countDocs p l₂ := by
  simp [countDocs, List.filter_append]

theorem countDocs_cons (p : α → Bool) (x : α) (l : List α) :
    countDocs p (x :: l) = (if p x then 1 else 0) + countDocs p l := by
  by_cases hx : p x <;> simp [countDocs, List.filter_cons, hx, Nat.add_comm]

theorem countDocs_insertOne (p : α → Bool) (x : α) (l : List α) :
    countDocs p (insertOne x l) = countDocs p l + (if p x then 1 else 0) := by
  by_cases hx : p x <;> simp [countDocs, insertOne, List.filter_append, List.filter_cons, hx]

theorem mem_updateOne {p : α → Bool} {f : α → α} {l : List α} {y : α}
    (h : y ∈ updateOne p f l) :
    y ∈ l ∨ ∃ a, a ∈ l ∧ p a = true ∧ y = f a := by
  induction l with
  | nil => simp [updateOne] at h
  | cons x xs ih =>
    by_cases hx : p x
    · simp [updateOne, hx] at h
      rcases h with h | h
      · exact Or.inr ⟨x, List.mem_cons_self x xs, hx, h⟩
      · exact Or.inl (List.mem_cons_of_mem x h)
    · simp [updateOne, hx] at h
      rcases h with h | h
      · exact Or.inl (by simp [h])
      · rcases ih h with h' | ⟨a, ha, hpa, hfa⟩
        · exact Or.inl (List.mem_cons_of_mem x h')
        · exact Or.inr ⟨a, List.mem_cons_of_mem x ha, hpa, hfa⟩

theorem le_foldr_max (l : List Nat) : ∀ i ∈ l, i ≤ l.foldr max 0 := by
  induction l with
  | nil => simp
  | cons x xs ih =>
    intro i hi
    rcases List.mem_cons.mp hi with rfl | h
    · exact Nat.le_max_left _ _
    · exact le_trans (ih i h) (Nat.le_max_right _ _)

theorem freshId_not_mem (db : DB) : freshId db ∉ allIds db := by
  intro hmem
  have := le_foldr_max (allIds db) _ hmem
  simp [freshId] at this

/-! ## Freshness consequences -/

theorem mem_allIds_user_id {db : DB} {u : User} (h : u ∈ db.users) :
    u.id ∈ allIds db := by
  have hm : u.id ∈ db.users.map User.id := List.mem_map_of_mem _ h
  simp only [allIds, List.mem_append]
  tauto

theorem mem_allIds_recipe_id {db : DB} {r : Recipe} (h : r ∈ db.recipes) :
    r.id ∈ allIds db := by
  have hm : r.id ∈ db.recipes.map Recipe.id := List.mem_map_of_mem _ h
  simp only [allIds, List.mem_append]
  tauto

theorem mem_allIds_recipe_author {db : DB} {r : Recipe} (h : r ∈ db.recipes) :
    r.author_id ∈ allIds db := by
  have hm : r.author_id ∈ db.recipes.map Recipe.author_id := List.mem_map_of_mem _ h
  simp only [allIds, List.mem_append]
  tauto

theorem mem_allIds_comment_id {db : DB} {c : Comment} (h : c ∈ db.comments) :
    c.id ∈ allIds db := by
  have hm : c.id ∈ db.comments.map Comment.id := List.mem_map_of_mem _ h
  simp only [allIds, List.mem_append]
  tauto

theorem mem_allIds_comment_recipe {db : DB} {c : Comment} (h : c ∈ db.comments) :
    c.recipe_id ∈ allIds db := by
  have hm : c.recipe_id ∈ db.comments.map Comment.recipe_id := List.mem_map_of_mem _ h
  simp only [allIds, List.mem_append]
  tauto

theorem mem_allIds_like_id {db : DB} {l : Like} (h : l ∈ db.likes) :
    l.id ∈ allIds db := by
  have hm : l.id ∈ db.likes.map Like.id := List.mem_map_of_mem _ h
  simp only [allIds, List.mem_append]
  tauto

theorem mem_allIds_like_recipe {db : DB} {l : Like} (h : l ∈ db.likes) :
    l.recipe_id ∈ allIds db := by
  have hm : l.recipe_id ∈ db.likes.map Like.recipe_id := List.mem_map_of_mem _ h
  simp only [allIds, List.mem_append]
  tauto

theorem mem_allIds_save_id {db : DB} {s : Save} (h : s ∈ db.saves) :
    s.id ∈ allIds db := by
  have hm : s.id ∈ db.saves.map Save.id := List.mem_map_of_mem _ h
  simp only [allIds, List.mem_append]
  tauto

theorem mem_allIds_save_recipe {db : DB} {s : Save} (h : s ∈ db.saves) :
    s.recipe_id ∈ allIds db := by
  have hm : s.recipe_id ∈ db.saves.map Save.recipe_id := List.mem_map_of_mem _ h
  simp only [allIds, List.mem_append]
  tauto

theorem mem_allIds_follow_id {db : DB} {f : Follow} (h : f ∈ db.follows) :
    f.id ∈ allIds db := by
  have hm : f.id ∈ db.follows.map Follow.id := List.mem_map_of_mem _ h
  simp only [allIds, List.mem_append]
  tauto

theorem mem_allIds_follow_follower {db : DB} {f : Follow} (h : f ∈ db.follows) :
    f.follower_id ∈ allIds db := by
  have hm : f.follower_id ∈ db.follows.map Follow.follower_id := List.mem_map_of_mem _ h
  simp only [allIds, List.mem_append]
  tauto

theorem mem_allIds_follow_following {db : DB} {f : Follow} (h : f ∈ db.follows) :
    f.following_id ∈ allIds db := by
  have hm : f.following_id ∈ db.follows.map Follow.following_id := List.mem_map_of_mem _ h
  simp only [allIds, List.mem_append]
  tauto

/-! ## Split-based reasoning under unique ids -/

theorem countDocs_split (q : α → Bool) (l₁ l₂ : List α) (a : α) :
    countDocs q (l₁ ++ a :: l₂) =
      countDocs q l₁ + (if q a then 1 else 0) + countDocs q l₂ := by
  by_cases hq : q a
  · simp [countDocs, List.filter_append, List.filter_cons, hq]
    omega
  · simp [countDocs, List.filter_append, List.filter_cons, hq]

theorem countDocs_split_update (q : α → Bool) (l₁ l₂ : List α) (a : α) (f : α → α)
    (hq : q (f a) = q a) :
    countDocs q (l₁ ++ f a :: l₂) = countDocs q (l₁ ++ a :: l₂) := by
  rw [countDocs_split, countDocs_split, hq]

theorem nodup_map_split_update (idf : α → β) (l₁ l₂ : List α) (a : α) (f : α → α)
    (hid : idf (f a) = idf a) (hn : ((l₁ ++ a :: l₂).map idf).Nodup) :
    ((l₁ ++ f a :: l₂).map idf).Nodup := by
  simpa [List.map_append, hid] using hn

/-- Replacing one element by another with the same id preserves id
nodup-ness. -/
theorem nodup_map_split_swap (idf : α → β) (l₁ l₂ : List α) (a b : α)
    (hid : idf b = idf a) (hn : ((l₁ ++ a :: l₂).map idf).Nodup) :
    ((l₁ ++ b :: l₂).map idf).Nodup := by
  simpa [List.map_append, hid] using hn

theorem id_notMem_of_split (idf : α → β) {l₁ l₂ : List α} {a : α}
    (hn : ((l₁ ++ a :: l₂).map idf).Nodup) :
    (∀ x ∈ l₁, idf x ≠ idf a) ∧ (∀ x ∈ l₂, idf x ≠ idf a) := by
  rw [List.map_append, List.map_cons] at hn
  rcases List.nodup_append.mp hn with ⟨_, h₂, hdisj⟩
  constructor
  · intro x hx he
    exact hdisj (he ▸ List.mem_map_of_mem idf hx) (List.mem_cons_self _ _)
  · intro x hx he
    exact (List.nodup_cons.mp h₂).1 (he ▸ List.mem_map_of_mem idf hx)

/-- An element of a collection with unique ids splits the collection,
no other element shares its id, and `delete_one` by its id removes
exactly it. -/
theorem mem_split_of_nodup (idf : α → Nat) {l : List α} {e : α}
    (he : e ∈ l) (hn : (l.map idf).Nodup) :
    ∃ l₁ l₂, l = l₁ ++ e :: l₂ ∧
      (∀ x ∈ l₁, idf x ≠ idf e) ∧ (∀ x ∈ l₂, idf x ≠ idf e) ∧
      deleteOne (fun x => idf x == idf e) l = l₁ ++ l₂ := by
  rcases List.append_of_mem he with ⟨l₁, l₂, rfl⟩
  rcases id_notMem_of_split idf hn with ⟨h₁, h₂⟩
  refine ⟨l₁, l₂, rfl, h₁, h₂, ?_⟩
  apply deleteOne_of_split
  · intro x hx
    simpa using h₁ x hx
  · simp

/-- A successful `find_one` on an id filter, under unique ids, splits
the collection with no other element matching the id. -/
theorem findOne_id_split (idf : α → Nat) {l : List α} {a : α} {i : Nat}
    (h : findOne (fun x => idf x == i) l = some a)
    (hn : (l.map idf).Nodup) :
    ∃ l₁ l₂, l = l₁ ++ a :: l₂ ∧ idf a = i ∧
      (∀ x ∈ l₁, idf x ≠ i) ∧ (∀ x ∈ l₂, idf x ≠ i) := by
  rcases findOne_eq_some_split h with ⟨l₁, l₂, rfl, hl₁, hpa⟩
  have hai : idf a = i := by simpa using hpa
  rcases id_notMem_of_split idf hn with ⟨_, h₂⟩
  refine ⟨l₁, l₂, rfl, hai, ?_, ?_⟩
  · intro x hx
    have := hl₁ x hx
    simpa using this
  · intro x hx
    exact fun he => h₂ x hx (he.trans hai.symm)

theorem countDocs_deleteMany_of_disjoint (q p : α → Bool) (l : List α)
    (h : ∀ x, q x = true → p x = false) :
    countDocs q (deleteMany p l) = countDocs q l := by
  induction l with
  | nil => rfl
  | cons x xs ih =>
    by_cases hp : p x
    · have hq : q x = false := by
        by_contra hqx
        simp only [Bool.not_eq_false] at hqx
        simp [h x hqx] at hp
      simp [deleteMany, List.filter_cons, hp, countDocs_cons, hq] at *
      simpa [deleteMany] using ih
    · have hp' : p x = false := by simpa using hp
      simp [deleteMany, List.filter_cons, hp', countDocs_cons] at *
      simpa [deleteMany, countDocs_cons] using ih

theorem nodup_map_sublist_of_split (idf : α → β) {l₁ l₂ : List α} {a : α}
    (hn : ((l₁ ++ a :: l₂).map idf).Nodup) :
    ((l₁ ++ l₂).map idf).Nodup := by
  rw [List.map_append, List.map_cons] at hn
  rw [List.map_append]
  rcases List.nodup_append.mp hn with ⟨h₁, h₂, hdisj⟩
  refine List.nodup_append.mpr ⟨h₁, (List.nodup_cons.mp h₂).2, ?_⟩
  intro b hb₁ hb₂
  exact hdisj hb₁ (List.mem_cons_of_mem _ hb₂)

theorem nodup_map_deleteMany (idf : α → β) (p : α → Bool) {l : List α}
    (hn : (l.map idf).Nodup) :
    ((deleteMany p l).map idf).Nodup := by
  have hsub : List.Sublist (deleteMany p l) l := List.filter_sublist l
  exact (hsub.map idf).nodup hn

theorem nodup_map_insertOne_fresh (idf : α → Nat) {l : List α} {x : α}
    (hn : (l.map idf).Nodup) (hx : ∀ y ∈ l, idf y ≠ idf x) :
    ((insertOne x l).map idf).Nodup := by
  rw [insertOne, List.map_append, List.map_cons, List.map_nil]
  refine List.nodup_append.mpr ⟨hn, List.nodup_singleton _, ?_⟩
  intro a ha hb
  rcases List.mem_map.mp ha with ⟨y, hy, rfl⟩
  rcases List.mem_singleton.mp hb with h
  exact hx y hy h

/-! ## Counter bookkeeping under split/insert -/

theorem countDocs_drop_of_noMatch (q : α → Bool) (l₁ l₂ : List α) (e : α)
    (hq : q e = false) :
    countDocs q (l₁ ++ e :: l₂) = countDocs q (l₁ ++ l₂) := by
  rw [countDocs_split, countDocs_append, hq]
  simp

theorem countDocs_drop_of_match (q : α → Bool) (l₁ l₂ : List α) (e : α)
    (hq : q e = true) :
    countDocs q (l₁ ++ e :: l₂) = countDocs q (l₁ ++ l₂) + 1 := by
  rw [countDocs_split, countDocs_append, hq]
  simp
  omega

/-! ## Invariant preservation: like_recipe -/

theorem inv_stateOf_like (db : DB) (uid rid now : Nat) (h : Inv db) :
    Inv (stateOf db (like_recipe db uid rid now)) := by
  obtain ⟨⟨hrec, husr⟩, hnu, hnr, hnc, hnl, hns, hnf, hnp⟩ := h
  cases hcu : get_current_user db uid with
  | error e =>
    simp only [like_recipe, hcu, stateOf]
    exact ⟨⟨hrec, husr⟩, hnu, hnr, hnc, hnl, hns, hnf, hnp⟩
  | ok cu =>
    cases hex : findOne (fun l => l.recipe_id == rid && l.user_id == cu.id) db.likes with
    | some e =>
      obtain ⟨hemem, hematch⟩ := findOne_eq_some_mem hex
      have herid : e.recipe_id = rid := by
        simp only [Bool.and_eq_true, beq_iff_eq] at hematch
        exact hematch.1
      obtain ⟨L1, L2, hLsplit, _, _, hdel⟩ := mem_split_of_nodup Like.id hemem hnl
      simp only [like_recipe, hcu, hex, stateOf]
      rw [hdel]
      cases hfr : findOne (fun r => r.id == rid) db.recipes with
      | none =>
        rw [updateOne_of_none hfr]
        have hnone := findOne_eq_none_iff.mp hfr
        refine ⟨⟨?_, ?_⟩, hnu, hnr, hnc, ?_, hns, hnf, hnp⟩
        · intro r hr
          have hid : r.id ≠ rid := by
            have := hnone r hr
            simpa using this
          obtain ⟨hl, hc, hs⟩ := hrec r hr
          refine ⟨?_, hc, hs⟩
          rw [hl]
          simp only [likeRows]
          rw [hLsplit, countDocs_drop_of_noMatch]
          simp [herid]
          exact fun he => hid he.symm
        · intro u hu
          exact husr u hu
        · rw [hLsplit] at hnl
          exact nodup_map_sublist_of_split _ hnl
      | some rec =>
        obtain ⟨R1, R2, hRsplit, hrid, hR1, hR2⟩ := findOne_id_split Recipe.id hfr hnr
        rw [hRsplit, updateOne_of_split (by intro x hx; simpa using hR1 x hx) (by simp [hrid])]
        refine ⟨⟨?_, ?_⟩, hnu, ?_, hnc, ?_, hns, hnf, hnp⟩
        · intro r' hr'
          simp only [likeRows, commentRows, saveRows]
          rcases List.mem_append.mp hr' with h1 | h2
          · have hne : r'.id ≠ rid := hR1 r' h1
            have hmem : r' ∈ db.recipes := by
              rw [hRsplit]
              exact List.mem_append_left _ h1
            obtain ⟨hl, hc, hs⟩ := hrec r' hmem
            refine ⟨?_, hc, hs⟩
            rw [hl]
            simp only [likeRows]
            rw [hLsplit, countDocs_drop_of_noMatch]
            simp [herid]
            exact fun he => hne he.symm
          · rcases List.mem_cons.mp h2 with h2 | h2
            · subst h2
              obtain ⟨hl, hc, hs⟩ := hrec rec (by rw [hRsplit]; exact List.mem_append_right _ (List.mem_cons_self _ _))
              refine ⟨?_, hc, hs⟩
              simp only [likeRows] at hl
              rw [hLsplit, countDocs_drop_of_match _ _ _ _ (by simp [herid, hrid])] at hl
              simp only [hl]
              push_cast
              ring
            · have hne : r'.id ≠ rid := hR2 r' h2
              have hmem : r' ∈ db.recipes := by
                rw [hRsplit]
                exact List.mem_append_right _ (List.mem_cons_of_mem _ h2)
              obtain ⟨hl, hc, hs⟩ := hrec r' hmem
              refine ⟨?_, hc, hs⟩
              rw [hl]
              simp only [likeRows]
              rw [hLsplit, countDocs_drop_of_noMatch]
              simp [herid]
              exact fun he => hne he.symm
        · intro u hu
          obtain ⟨hf1, hf2, hr3⟩ := husr u hu
          refine ⟨hf1, hf2, ?_⟩
          rw [hr3]
          simp only [ownedRecipeRows]
          rw [hRsplit, countDocs_split, countDocs_split]
        · rw [hRsplit] at hnr
          exact nodup_map_split_swap Recipe.id _ _ rec _ rfl hnr
        · rw [hLsplit] at hnl
          exact nodup_map_sublist_of_split _ hnl
    | none =>
      simp only [like_recipe, hcu, hex, stateOf]
      have hfreshlike : ∀ y ∈ db.likes, y.id ≠ freshId db := by
        intro y hy he
        exact freshId_not_mem db (he ▸ mem_allIds_like_id hy)
      cases hfr : findOne (fun r => r.id == rid) db.recipes with
      | none =>
        rw [updateOne_of_none hfr]
        have hnone := findOne_eq_none_iff.mp hfr
        refine ⟨⟨?_, ?_⟩, hnu, hnr, hnc, ?_, hns, hnf, hnp⟩
        · intro r hr
          have hid : r.id ≠ rid := by
            have := hnone r hr
            simpa using this
          obtain ⟨hl, hc, hs⟩ := hrec r hr
          refine ⟨?_, hc, hs⟩
          rw [hl]
          simp only [likeRows]
          rw [countDocs_insertOne]
          simp
          exact fun he => hid he.symm
        · intro u hu
          exact husr u hu
        · exact nodup_map_insertOne_fresh Like.id hnl hfreshlike
      | some rec =>
        obtain ⟨R1, R2, hRsplit, hrid, hR1, hR2⟩ := findOne_id_split Recipe.id hfr hnr
        rw [hRsplit, updateOne_of_split (by intro x hx; simpa using hR1 x hx) (by simp [hrid])]
        refine ⟨⟨?_, ?_⟩, hnu, ?_, hnc, ?_, hns, hnf, hnp⟩
        · intro r' hr'
          simp only [likeRows, commentRows, saveRows]
          rcases List.mem_append.mp hr' with h1 | h2
          · have hne : r'.id ≠ rid := hR1 r' h1
            have hmem : r' ∈ db.recipes := by
              rw [hRsplit]
              exact List.mem_append_left _ h1
            obtain ⟨hl, hc, hs⟩ := hrec r' hmem
            refine ⟨?_, hc, hs⟩
            rw [hl]
            simp only [likeRows]
            rw [countDocs_insertOne]
            simp
            exact fun he => hne he.symm
          · rcases List.mem_cons.mp h2 with h2 | h2
            · subst h2
              obtain ⟨hl, hc, hs⟩ := hrec rec (by rw [hRsplit]; exact List.mem_append_right _ (List.mem_cons_self _ _))
              refine ⟨?_, hc, hs⟩
              simp only [likeRows] at hl
              rw [countDocs_insertOne]
              simp [hl, hrid]
            · have hne : r'.id ≠ rid := hR2 r' h2
              have hmem : r' ∈ db.recipes := by
                rw [hRsplit]
                exact List.mem_append_right _ (List.mem_cons_of_mem _ h2)
              obtain ⟨hl, hc, hs⟩ := hrec r' hmem
              refine ⟨?_, hc, hs⟩
              rw [hl]
              simp only [likeRows]
              rw [countDocs_insertOne]
              simp
              exact fun he => hne he.symm
        · intro u hu
          obtain ⟨hf1, hf2, hr3⟩ := husr u hu
          refine ⟨hf1, hf2, ?_⟩
          rw [hr3]
          simp only [ownedRecipeRows]
          rw [hRsplit, countDocs_split, countDocs_split]
        · rw [hRsplit] at hnr
          exact nodup_map_split_swap Recipe.id _ _ rec _ rfl hnr
        · exact nodup_map_insertOne_fresh Like.id hnl hfreshlike

/-! ## Invariant preservation: save_recipe -/

theorem inv_stateOf_save (db : DB) (uid rid now : Nat) (h : Inv db) :
    Inv (stateOf db (save_recipe db uid rid now)) := by
  obtain ⟨⟨hrec, husr⟩, hnu, hnr, hnc, hnl, hns, hnf, hnp⟩ := h
  cases hcu : get_current_user db uid with
  | error e =>
    simp only [save_recipe, hcu, stateOf]
    exact ⟨⟨hrec, husr⟩, hnu, hnr, hnc, hnl, hns, hnf, hnp⟩
  | ok cu =>
    cases hex : findOne (fun s => s.recipe_id == rid && s.user_id == cu.id) db.saves with
    | some e =>
      obtain ⟨hemem, hematch⟩ := findOne_eq_some_mem hex
      have herid : e.recipe_id = rid := by
        simp only [Bool.and_eq_true, beq_iff_eq] at hematch
        exact hematch.1
      obtain ⟨S1, S2, hSsplit, _, _, hdel⟩ := mem_split_of_nodup Save.id hemem hns
      simp only [save_recipe, hcu, hex, stateOf]
      rw [hdel]
      cases hfr : findOne (fun r => r.id == rid) db.recipes with
      | none =>
        rw [updateOne_of_none hfr]
        have hnone := findOne_eq_none_iff.mp hfr
        refine ⟨⟨?_, ?_⟩, hnu, hnr, hnc, hnl, ?_, hnf, hnp⟩
        · intro r hr
          have hid : r.id ≠ rid := by
            have := hnone r hr
            simpa using this
          obtain ⟨hl, hc, hs⟩ := hrec r hr
          refine ⟨hl, hc, ?_⟩
          rw [hs]
          simp only [saveRows]
          rw [hSsplit, countDocs_drop_of_noMatch]
          simp [herid]
          exact fun he => hid he.symm
        · intro u hu
          exact husr u hu
        · rw [hSsplit] at hns
          exact nodup_map_sublist_of_split _ hns
      | some rec =>
        obtain ⟨R1, R2, hRsplit, hrid, hR1, hR2⟩ := findOne_id_split Recipe.id hfr hnr
        rw [hRsplit, updateOne_of_split (by intro x hx; simpa using hR1 x hx) (by simp [hrid])]
        refine ⟨⟨?_, ?_⟩, hnu, ?_, hnc, hnl, ?_, hnf, hnp⟩
        · intro r' hr'
          rcases List.mem_append.mp hr' with h1 | h2
          · have hne : r'.id ≠ rid := hR1 r' h1
            have hmem : r' ∈ db.recipes := by
              rw [hRsplit]
              exact List.mem_append_left _ h1
            obtain ⟨hl, hc, hs⟩ := hrec r' hmem
            refine ⟨hl, hc, ?_⟩
            rw [hs]
            simp only [saveRows]
            rw [hSsplit, countDocs_drop_of_noMatch]
            simp [herid]
            exact fun he => hne he.symm
          · rcases List.mem_cons.mp h2 with h2 | h2
            · subst h2
              obtain ⟨hl, hc, hs⟩ := hrec rec (by rw [hRsplit]; exact List.mem_append_right _ (List.mem_cons_self _ _))
              refine ⟨hl, hc, ?_⟩
              simp only [saveRows] at hs
              rw [hSsplit, countDocs_drop_of_match _ _ _ _ (by simp [herid, hrid])] at hs
              simp only [saveRows, hs]
              push_cast
              ring
            · have hne : r'.id ≠ rid := hR2 r' h2
              have hmem : r' ∈ db.recipes := by
                rw [hRsplit]
                exact List.mem_append_right _ (List.mem_cons_of_mem _ h2)
              obtain ⟨hl, hc, hs⟩ := hrec r' hmem
              refine ⟨hl, hc, ?_⟩
              rw [hs]
              simp only [saveRows]
              rw [hSsplit, countDocs_drop_of_noMatch]
              simp [herid]
              exact fun he => hne he.symm
        · intro u hu
          obtain ⟨hf1, hf2, hr3⟩ := husr u hu
          refine ⟨hf1, hf2, ?_⟩
          rw [hr3]
          simp only [ownedRecipeRows]
          rw [hRsplit, countDocs_split, countDocs_split]
        · rw [hRsplit] at hnr
          exact nodup_map_split_swap Recipe.id _ _ rec _ rfl hnr
        · rw [hSsplit] at hns
          exact nodup_map_sublist_of_split _ hns
    | none =>
      simp only [save_recipe, hcu, hex, stateOf]
      have hfreshsave : ∀ y ∈ db.saves, y.id ≠ freshId db := by
        intro y hy he
        exact freshId_not_mem db (he ▸ mem_allIds_save_id hy)
      cases hfr : findOne (fun r => r.id == rid) db.recipes with
      | none =>
        rw [updateOne_of_none hfr]
        have hnone := findOne_eq_none_iff.mp hfr
        refine ⟨⟨?_, ?_⟩, hnu, hnr, hnc, hnl, ?_, hnf, hnp⟩
        · intro r hr
          have hid : r.id ≠ rid := by
            have := hnone r hr
            simpa using this
          obtain ⟨hl, hc, hs⟩ := hrec r hr
          refine ⟨hl, hc, ?_⟩
          rw [hs]
          simp only [saveRows]
          rw [countDocs_insertOne]
          simp
          exact fun he => hid he.symm
        · intro u hu
          exact husr u hu
        · exact nodup_map_insertOne_fresh Save.id hns hfreshsave
      | some rec =>
        obtain ⟨R1, R2, hRsplit, hrid, hR1, hR2⟩ := findOne_id_split Recipe.id hfr hnr
        rw [hRsplit, updateOne_of_split (by intro x hx; simpa using hR1 x hx) (by simp [hrid])]
        refine ⟨⟨?_, ?_⟩, hnu, ?_, hnc, hnl, ?_, hnf, hnp⟩
        · intro r' hr'
          rcases List.mem_append.mp hr' with h1 | h2
          · have hne : r'.id ≠ rid := hR1 r' h1
            have hmem : r' ∈ db.recipes := by
              rw [hRsplit]
              exact List.mem_append_left _ h1
            obtain ⟨hl, hc, hs⟩ := hrec r' hmem
            refine ⟨hl, hc, ?_⟩
            rw [hs]
            simp only [saveRows]
            rw [countDocs_insertOne]
            simp
            exact fun he => hne he.symm
          · rcases List.mem_cons.mp h2 with h2 | h2
            · subst h2
              obtain ⟨hl, hc, hs⟩ := hrec rec (by rw [hRsplit]; exact List.mem_append_right _ (List.mem_cons_self _ _))
              refine ⟨hl, hc, ?_⟩
              simp only [saveRows] at hs ⊢
              rw [countDocs_insertOne]
              simp [hs, hrid]
            · have hne : r'.id ≠ rid := hR2 r' h2
              have hmem : r' ∈ db.recipes := by
                rw [hRsplit]
                exact List.mem_append_right _ (List.mem_cons_of_mem _ h2)
              obtain ⟨hl, hc, hs⟩ := hrec r' hmem
              refine ⟨hl, hc, ?_⟩
              rw [hs]
              simp only [saveRows]
              rw [countDocs_insertOne]
              simp
              exact fun he => hne he.symm
        · intro u hu
          obtain ⟨hf1, hf2, hr3⟩ := husr u hu
          refine ⟨hf1, hf2, ?_⟩
          rw [hr3]
          simp only [ownedRecipeRows]
          rw [hRsplit, countDocs_split, countDocs_split]
        · rw [hRsplit] at hnr
          exact nodup_map_split_swap Recipe.id _ _ rec _ rfl hnr
        · exact nodup_map_insertOne_fresh Save.id hns hfreshsave

/-! ## Invariant preservation: create_comment -/

theorem inv_stateOf_create_comment (db : DB) (uid rid : Nat) (text : String) (now : Nat)
    (h : Inv db) :
    Inv (stateOf db (create_comment db uid rid text now)) := by
  obtain ⟨⟨hrec, husr⟩, hnu, hnr, hnc, hnl, hns, hnf, hnp⟩ := h
  cases hcu : get_current_user db uid with
  | error e =>
    simp only [create_comment, hcu, stateOf]
    exact ⟨⟨hrec, husr⟩, hnu, hnr, hnc, hnl, hns, hnf, hnp⟩
  | ok cu =>
    simp only [create_comment, hcu, stateOf]
    have hfreshcom : ∀ y ∈ db.comments, y.id ≠ freshId db := by
      intro y hy he
      exact freshId_not_mem db (he ▸ mem_allIds_comment_id hy)
    cases hfr : findOne (fun r => r.id == rid) db.recipes with
    | none =>
      rw [updateOne_of_none hfr]
      have hnone := findOne_eq_none_iff.mp hfr
      refine ⟨⟨?_, ?_⟩, hnu, hnr, ?_, hnl, hns, hnf, hnp⟩
      · intro r hr
        have hid : r.id ≠ rid := by
          have := hnone r hr
          simpa using this
        obtain ⟨hl, hc, hs⟩ := hrec r hr
        refine ⟨hl, ?_, hs⟩
        rw [hc]
        simp only [commentRows]
        rw [countDocs_insertOne]
        simp
        exact fun he => hid he.symm
      · intro u hu
        exact husr u hu
      · exact nodup_map_insertOne_fresh Comment.id hnc hfreshcom
    | some rec =>
      obtain ⟨R1, R2, hRsplit, hrid, hR1, hR2⟩ := findOne_id_split Recipe.id hfr hnr
      rw [hRsplit, updateOne_of_split (by intro x hx; simpa using hR1 x hx) (by simp [hrid])]
      refine ⟨⟨?_, ?_⟩, hnu, ?_, ?_, hnl, hns, hnf, hnp⟩
      · intro r' hr'
        rcases List.mem_append.mp hr' with h1 | h2
        · have hne : r'.id ≠ rid := hR1 r' h1
          have hmem : r' ∈ db.recipes := by
            rw [hRsplit]
            exact List.mem_append_left _ h1
          obtain ⟨hl, hc, hs⟩ := hrec r' hmem
          refine ⟨hl, ?_, hs⟩
          rw [hc]
          simp only [commentRows]
          rw [countDocs_insertOne]
          simp
          exact fun he => hne he.symm
        · rcases List.mem_cons.mp h2 with h2 | h2
          · subst h2
            obtain ⟨hl, hc, hs⟩ := hrec rec (by rw [hRsplit]; exact List.mem_append_right _ (List.mem_cons_self _ _))
            refine ⟨hl, ?_, hs⟩
            simp only [commentRows] at hc ⊢
            rw [countDocs_insertOne]
            simp [hc, hrid]
          · have hne : r'.id ≠ rid := hR2 r' h2
            have hmem : r' ∈ db.recipes := by
              rw [hRsplit]
              exact List.mem_append_right _ (List.mem_cons_of_mem _ h2)
            obtain ⟨hl, hc, hs⟩ := hrec r' hmem
            refine ⟨hl, ?_, hs⟩
            rw [hc]
            simp only [commentRows]
            rw [countDocs_insertOne]
            simp
            exact fun he => hne he.symm
      · intro u hu
        obtain ⟨hf1, hf2, hr3⟩ := husr u hu
        refine ⟨hf1, hf2, ?_⟩
        rw [hr3]
        simp only [ownedRecipeRows]
        rw [hRsplit, countDocs_split, countDocs_split]
      · rw [hRsplit] at hnr
        exact nodup_map_split_swap Recipe.id _ _ rec _ rfl hnr
      · exact nodup_map_insertOne_fresh Comment.id hnc hfreshcom

/-! ## Invariant preservation: delete_comment -/

theorem inv_stateOf_delete_comment (db : DB) (uid cid : Nat) (h : Inv db) :
    Inv (stateOf db (delete_comment db uid cid)) := by
  obtain ⟨⟨hrec, husr⟩, hnu, hnr, hnc, hnl, hns, hnf, hnp⟩ := h
  cases hcu : get_current_user db uid with
  | error e =>
    simp only [delete_comment, hcu, stateOf]
    exact ⟨⟨hrec, husr⟩, hnu, hnr, hnc, hnl, hns, hnf, hnp⟩
  | ok cu =>
    cases hex : findOne (fun c => c.id == cid) db.comments with
    | none =>
      simp only [delete_comment, hcu, hex, stateOf]
      exact ⟨⟨hrec, husr⟩, hnu, hnr, hnc, hnl, hns, hnf, hnp⟩
    | some comment =>
      by_cases hauth :
          (comment.user_id != cu.id && !(cu.role == "admin" || cu.role == "moderator")) = true
      · simp only [delete_comment, hcu, hex, stateOf, hauth, if_true]
        exact ⟨⟨hrec, husr⟩, hnu, hnr, hnc, hnl, hns, hnf, hnp⟩
      · have hauth' :
            (comment.user_id != cu.id && !(cu.role == "admin" || cu.role == "moderator")) = false := by
          simpa using hauth
        obtain ⟨C1, C2, hCsplit, hcid, hC1, hC2⟩ := findOne_id_split Comment.id hex hnc
        have hdel : deleteOne (fun c => c.id == cid) db.comments = C1 ++ C2 := by
          rw [hCsplit]
          exact deleteOne_of_split (fun x hx => by simpa using hC1 x hx) (by simp [hcid])
        simp only [delete_comment, hcu, hex, hauth', Bool.false_eq_true, if_false, stateOf]
        rw [hdel]
        cases hfr : findOne (fun r => r.id == comment.recipe_id) db.recipes with
        | none =>
          rw [updateOne_of_none hfr]
          have hnone := findOne_eq_none_iff.mp hfr
          refine ⟨⟨?_, ?_⟩, hnu, hnr, ?_, hnl, hns, hnf, hnp⟩
          · intro r hr
            have hid : r.id ≠ comment.recipe_id := by
              have := hnone r hr
              simpa using this
            obtain ⟨hl, hc, hs⟩ := hrec r hr
            refine ⟨hl, ?_, hs⟩
            rw [hc]
            simp only [commentRows]
            rw [hCsplit, countDocs_drop_of_noMatch]
            simp
            exact fun he => hid he.symm
          · intro u hu
            exact husr u hu
          · rw [hCsplit] at hnc
            exact nodup_map_sublist_of_split _ hnc
        | some rec =>
          obtain ⟨R1, R2, hRsplit, hrid, hR1, hR2⟩ :=
            findOne_id_split Recipe.id hfr hnr
          rw [hRsplit, updateOne_of_split (by intro x hx; simpa using hR1 x hx) (by simp [hrid])]
          refine ⟨⟨?_, ?_⟩, hnu, ?_, ?_, hnl, hns, hnf, hnp⟩
          · intro r' hr'
            rcases List.mem_append.mp hr' with h1 | h2
            · have hne : r'.id ≠ comment.recipe_id := hR1 r' h1
              have hmem : r' ∈ db.recipes := by
                rw [hRsplit]
                exact List.mem_append_left _ h1
              obtain ⟨hl, hc, hs⟩ := hrec r' hmem
              refine ⟨hl, ?_, hs⟩
              rw [hc]
              simp only [commentRows]
              rw [hCsplit, countDocs_drop_of_noMatch]
              simp
              exact fun he => hne he.symm
            · rcases List.mem_cons.mp h2 with h2 | h2
              · subst h2
                obtain ⟨hl, hc, hs⟩ := hrec rec
                  (by rw [hRsplit]; exact List.mem_append_right _ (List.mem_cons_self _ _))
                refine ⟨hl, ?_, hs⟩
                simp only [commentRows] at hc
                rw [hCsplit, countDocs_drop_of_match _ _ _ _ (by simp [hrid])] at hc
                simp only [commentRows, hc]
                push_cast
                ring
              · have hne : r'.id ≠ comment.recipe_id := hR2 r' h2
                have hmem : r' ∈ db.recipes := by
                  rw [hRsplit]
                  exact List.mem_append_right _ (List.mem_cons_of_mem _ h2)
                obtain ⟨hl, hc, hs⟩ := hrec r' hmem
                refine ⟨hl, ?_, hs⟩
                rw [hc]
                simp only [commentRows]
                rw [hCsplit, countDocs_drop_of_noMatch]
                simp
                exact fun he => hne he.symm
          · intro u hu
            obtain ⟨hf1, hf2, hr3⟩ := husr u hu
            refine ⟨hf1, hf2, ?_⟩
            rw [hr3]
            simp only [ownedRecipeRows]
            rw [hRsplit, countDocs_split, countDocs_split]
          · rw [hRsplit] at hnr
            exact nodup_map_split_swap Recipe.id _ _ rec _ rfl hnr
          · rw [hCsplit] at hnc
            exact nodup_map_sublist_of_split _ hnc

/-! ## `update_one` as a pointwise map when the filter matches at most once -/

theorem countDocs_eq_zero {p : α → Bool} {l : List α}
    (h : ∀ x ∈ l, p x = false) : countDocs p l = 0 := by
  induction l with
  | nil => rfl
  | cons x xs ih =>
    rw [countDocs_cons, h x (List.mem_cons_self _ _)]
    simpa using ih fun y hy => h y (List.mem_cons_of_mem _ hy)

theorem all_false_of_countDocs_eq_zero {p : α → Bool} {l : List α}
    (h : countDocs p l = 0) : ∀ x ∈ l, p x = false := by
  induction l with
  | nil => simp
  | cons x xs ih =>
    rw [countDocs_cons] at h
    by_cases hx : p x = true
    · rw [hx] at h
      simp at h
    · have hx' : p x = false := by simpa using hx
      rw [hx'] at h
      simp at h
      intro y hy
      rcases List.mem_cons.mp hy with rfl | hy'
      · exact hx'
      · exact ih (by simpa [countDocs] using h) y hy'

theorem map_cond_id (p : α → Bool) (f : α → α) (l : List α)
    (h : ∀ y ∈ l, p y = false) :
    l.map (fun y => if p y then f y else y) = l := by
  induction l with
  | nil => rfl
  | cons x xs ih =>
    rw [List.map_cons, h x (List.mem_cons_self _ _)]
    simpa using ih fun y hy => h y (List.mem_cons_of_mem _ hy)

/-- When the filter matches at most one document, `update_one` acts
pointwise. -/
theorem updateOne_eq_map (p : α → Bool) (f : α → α) (l : List α)
    (h : countDocs p l ≤ 1) :
    updateOne p f l = l.map (fun y => if p y then f y else y) := by
  induction l with
  | nil => rfl
  | cons x xs ih =>
    rw [countDocs_cons] at h
    by_cases hx : p x = true
    · rw [hx] at h
      have h0 : countDocs p xs = 0 := by
        simp at h
        omega
      have hall := all_false_of_countDocs_eq_zero h0
      simp [updateOne, hx, map_cond_id p f xs hall]
    · have hx' : p x = false := by simpa using hx
      rw [hx'] at h
      simp at h
      simp [updateOne, hx', ih h]

/-- Unique ids make every id filter match at most once. -/
theorem countDocs_id_le_one (idf : α → Nat) (l : List α) (i : Nat)
    (hn : (l.map idf).Nodup) :
    countDocs (fun x => idf x == i) l ≤ 1 := by
  induction l with
  | nil => simp [countDocs]
  | cons x xs ih =>
    rw [countDocs_cons]
    simp only [List.map_cons, List.nodup_cons] at hn
    by_cases hx : (idf x == i) = true
    · have hxi : idf x = i := by simpa using hx
      have h0 : ∀ y ∈ xs, (idf y == i) = false := by
        intro y hy
        have hne : idf y ≠ idf x := by
          intro he
          exact hn.1 (he ▸ List.mem_map_of_mem idf hy)
        simp [hxi ▸ hne]
      rw [hx, countDocs_eq_zero h0]
      simp
    · have hx' : (idf x == i) = false := by simpa using hx
      rw [hx']
      simpa using ih hn.2

theorem countDocs_map (q : α → Bool) (g : α → α) (l : List α)
    (h : ∀ x ∈ l, q (g x) = q x) : countDocs q (l.map g) = countDocs q l := by
  induction l with
  | nil => rfl
  | cons x xs ih =>
    rw [List.map_cons, countDocs_cons, countDocs_cons, h x (List.mem_cons_self _ _),
      ih fun y hy => h y (List.mem_cons_of_mem _ hy)]

theorem map_map_id_eq (idf : α → β) (g : α → α) (l : List α)
    (h : ∀ x, idf (g x) = idf x) :
    (l.map g).map idf = l.map idf := by
  rw [List.map_map]
  exact congrArg (fun f => List.map f l) (funext h)

theorem nodup_map_map (idf : α → β) (g : α → α) (l : List α)
    (hg : ∀ x, idf (g x) = idf x) (hn : (l.map idf).Nodup) :
    ((l.map g).map idf).Nodup := by
  rw [map_map_id_eq idf g l hg]
  exact hn

/-! ## Invariant preservation: register -/

theorem inv_stateOf_register (db : DB) (data : UserCreate) (now : Nat) (h : Inv db) :
    Inv (stateOf db (register db data now)) := by
  obtain ⟨⟨hrec, husr⟩, hnu, hnr, hnc, hnl, hns, hnf, hnp⟩ := h
  cases he : findOne (fun u => u.email == data.email) db.users with
  | some u0 =>
    simp only [register, he, stateOf]
    exact ⟨⟨hrec, husr⟩, hnu, hnr, hnc, hnl, hns, hnf, hnp⟩
  | none =>
    cases hun : findOne (fun u => u.username == data.username) db.users with
    | some u0 =>
      simp only [register, he, hun, stateOf]
      exact ⟨⟨hrec, husr⟩, hnu, hnr, hnc, hnl, hns, hnf, hnp⟩
    | none =>
      simp only [register, he, hun, stateOf]
      refine ⟨⟨?_, ?_⟩, ?_, hnr, hnc, hnl, hns, hnf, hnp⟩
      · intro r hr
        exact hrec r hr
      · intro u' hu'
        rcases List.mem_append.mp hu' with h1 | h2
        · exact husr u' h1
        · rcases List.mem_singleton.mp h2 with rfl
          have h0f : countDocs (fun f => f.following_id == freshId db) db.follows = 0 :=
            countDocs_eq_zero (by
              intro f hf
              simp only [beq_eq_false_iff_ne, ne_eq]
              intro heq
              exact freshId_not_mem db (heq ▸ mem_allIds_follow_following hf))
          have h0g : countDocs (fun f => f.follower_id == freshId db) db.follows = 0 :=
            countDocs_eq_zero (by
              intro f hf
              simp only [beq_eq_false_iff_ne, ne_eq]
              intro heq
              exact freshId_not_mem db (heq ▸ mem_allIds_follow_follower hf))
          have h0r : countDocs (fun r => r.author_id == freshId db) db.recipes = 0 :=
            countDocs_eq_zero (by
              intro r hr
              simp only [beq_eq_false_iff_ne, ne_eq]
              intro heq
              exact freshId_not_mem db (heq ▸ mem_allIds_recipe_author hr))
          exact ⟨by simp [followerRows, h0f], by simp [followingRows, h0g],
            by simp [ownedRecipeRows, h0r]⟩
      · refine nodup_map_insertOne_fresh User.id hnu ?_
        intro y hy heq
        exact freshId_not_mem db ((show y.id = freshId db from heq) ▸ mem_allIds_user_id hy)

/-! ## Invariant preservation: create_recipe -/

theorem inv_stateOf_create_recipe (db : DB) (uid : Nat) (data : RecipeCreate) (now : Nat)
    (h : Inv db) :
    Inv (stateOf db (create_recipe db uid data now)) := by
  obtain ⟨⟨hrec, husr⟩, hnu, hnr, hnc, hnl, hns, hnf, hnp⟩ := h
  cases hfu : findOne (fun u => u.id == uid) db.users with
  | none =>
    simp only [create_recipe, get_current_user, hfu, stateOf]
    exact ⟨⟨hrec, husr⟩, hnu, hnr, hnc, hnl, hns, hnf, hnp⟩
  | some cu =>
    simp only [create_recipe, get_current_user, hfu, stateOf]
    rw [updateOne_eq_map _ _ _ (countDocs_id_le_one User.id db.users cu.id hnu)]
    refine ⟨⟨?_, ?_⟩, ?_, ?_, hnc, hnl, hns, hnf, hnp⟩
    · intro r' hr'
      rcases List.mem_append.mp hr' with h1 | h2
      · exact hrec r' h1
      · rcases List.mem_singleton.mp h2 with rfl
        have h0l : countDocs (fun l => l.recipe_id == freshId db) db.likes = 0 :=
          countDocs_eq_zero (by
            intro l hl
            simp only [beq_eq_false_iff_ne, ne_eq]
            intro heq
            exact freshId_not_mem db (heq ▸ mem_allIds_like_recipe hl))
        have h0c : countDocs (fun c => c.recipe_id == freshId db) db.comments = 0 :=
          countDocs_eq_zero (by
            intro c hc
            simp only [beq_eq_false_iff_ne, ne_eq]
            intro heq
            exact freshId_not_mem db (heq ▸ mem_allIds_comment_recipe hc))
        have h0s : countDocs (fun s => s.recipe_id == freshId db) db.saves = 0 :=
          countDocs_eq_zero (by
            intro s hs
            simp only [beq_eq_false_iff_ne, ne_eq]
            intro heq
            exact freshId_not_mem db (heq ▸ mem_allIds_save_recipe hs))
        exact ⟨by simp [likeRows, h0l], by simp [commentRows, h0c], by simp [saveRows, h0s]⟩
    · intro u' hu'
      rcases List.mem_map.mp hu' with ⟨u, hu, rfl⟩
      obtain ⟨hf1, hf2, hr3⟩ := husr u hu
      by_cases hid : (u.id == cu.id) = true
      · have hueq : u.id = cu.id := by simpa using hid
        simp only [hid, if_true]
        refine ⟨hf1, hf2, ?_⟩
        simp only [ownedRecipeRows] at hr3 ⊢
        rw [countDocs_insertOne]
        simp [hr3, hueq]
      · have hid' : (u.id == cu.id) = false := by simpa using hid
        have hune : u.id ≠ cu.id := by simpa using hid'
        simp only [hid', Bool.false_eq_true, if_false]
        refine ⟨hf1, hf2, ?_⟩
        simp only [ownedRecipeRows] at hr3 ⊢
        rw [countDocs_insertOne]
        simp [hr3]
        exact fun heq => hune heq.symm
    · exact nodup_map_map User.id _ db.users
        (fun x => by by_cases hx : (x.id == cu.id) = true <;> simp [hx]) hnu
    · refine nodup_map_insertOne_fresh Recipe.id hnr ?_
      intro y hy heq
      exact freshId_not_mem db ((show y.id = freshId db from heq) ▸ mem_allIds_recipe_id hy)

/-! ## Invariant preservation: update_recipe -/

/-- Generic: a recipe update that preserves the id, the owner and the
three denormalized counters preserves the invariant. -/
theorem inv_update_recipes (db : DB) (rid : Nat) (f : Recipe → Recipe)
    (hid : ∀ r, (f r).id = r.id)
    (hown : ∀ r, (f r).author_id = r.author_id)
    (hlc : ∀ r, (f r).likes_count = r.likes_count)
    (hcc : ∀ r, (f r).comments_count = r.comments_count)
    (hsc : ∀ r, (f r).saves_count = r.saves_count)
    (h : Inv db) :
    Inv { db with recipes := updateOne (fun r => r.id == rid) f db.recipes } := by
  obtain ⟨⟨hrec, husr⟩, hnu, hnr, hnc, hnl, hns, hnf, hnp⟩ := h
  rw [updateOne_eq_map _ _ _ (countDocs_id_le_one Recipe.id db.recipes rid hnr)]
  refine ⟨⟨?_, ?_⟩, hnu, ?_, hnc, hnl, hns, hnf, hnp⟩
  · intro r' hr'
    rcases List.mem_map.mp hr' with ⟨r, hr, rfl⟩
    obtain ⟨hl, hc, hs⟩ := hrec r hr
    by_cases hx : (r.id == rid) = true
    · simp only [hx, if_true]
      refine ⟨?_, ?_, ?_⟩
      · rw [hlc r]
        simpa [likeRows, hid r] using hl
      · rw [hcc r]
        simpa [commentRows, hid r] using hc
      · rw [hsc r]
        simpa [saveRows, hid r] using hs
    · have hx' : (r.id == rid) = false := by simpa using hx
      simp only [hx', Bool.false_eq_true, if_false]
      exact ⟨hl, hc, hs⟩
  · intro u hu
    obtain ⟨hf1, hf2, hr3⟩ := husr u hu
    refine ⟨hf1, hf2, ?_⟩
    rw [hr3]
    simp only [ownedRecipeRows]
    rw [countDocs_map]
    intro x hx
    by_cases hxx : (x.id == rid) = true
    · simp [hxx, hown x]
    · have hxx' : (x.id == rid) = false := by simpa using hxx
      simp [hxx']
  · exact nodup_map_map Recipe.id _ db.recipes
      (fun x => by by_cases hx : (x.id == rid) = true <;> simp [hx, hid x]) hnr

theorem inv_stateOf_update_recipe (db : DB) (uid rid : Nat) (data : RecipeCreate) (now : Nat)
    (h : Inv db) :
    Inv (stateOf db (update_recipe db uid rid data now)) := by
  have hinv := h
  obtain ⟨⟨hrec, husr⟩, hnu, hnr, hnc, hnl, hns, hnf, hnp⟩ := h
  cases hfu : findOne (fun u => u.id == uid) db.users with
  | none =>
    simp only [update_recipe, get_current_user, hfu, stateOf]
    exact ⟨⟨hrec, husr⟩, hnu, hnr, hnc, hnl, hns, hnf, hnp⟩
  | some cu =>
    cases hfr : findOne (fun r => r.id == rid) db.recipes with
    | none =>
      simp only [update_recipe, get_current_user, hfu, hfr, stateOf]
      exact ⟨⟨hrec, husr⟩, hnu, hnr, hnc, hnl, hns, hnf, hnp⟩
    | some recipe =>
      by_cases hauthz :
          (recipe.author_id != cu.id && !(cu.role == "admin" || cu.role == "moderator")) = true
      · simp only [update_recipe, get_current_user, hfu, hfr, hauthz, if_true, stateOf]
        exact ⟨⟨hrec, husr⟩, hnu, hnr, hnc, hnl, hns, hnf, hnp⟩
      · have hauthz' :
            (recipe.author_id != cu.id && !(cu.role == "admin" || cu.role == "moderator")) = false := by
          simpa using hauthz
        have hinv1 := inv_update_recipes db rid (applyRecipeUpdate data now)
          (fun r => rfl) (fun r => rfl) (fun r => rfl) (fun r => rfl) (fun r => rfl) hinv
        simp only [update_recipe, get_current_user, hfu, hfr, hauthz', Bool.false_eq_true,
          if_false]
        cases hre : findOne (fun r => r.id == rid)
            (updateOne (fun r => r.id == rid) (applyRecipeUpdate data now) db.recipes) with
    | none =>
      simp only [hre, stateOf]
      exact ⟨⟨hrec, husr⟩, hnu, hnr, hnc, hnl, hns, hnf, hnp⟩
    | some upd =>
      simp only [hre, stateOf]
      exact hinv1

/-! ## Invariant preservation: delete_recipe -/

theorem inv_stateOf_delete_recipe (db : DB) (uid rid : Nat) (h : Inv db) :
    Inv (stateOf db (delete_recipe db uid rid)) := by
  obtain ⟨⟨hrec, husr⟩, hnu, hnr, hnc, hnl, hns, hnf, hnp⟩ := h
  cases hfu : findOne (fun u => u.id == uid) db.users with
  | none =>
    simp only [delete_recipe, get_current_user, hfu, stateOf]
    exact ⟨⟨hrec, husr⟩, hnu, hnr, hnc, hnl, hns, hnf, hnp⟩
  | some cu =>
    cases hfr : findOne (fun r => r.id == rid) db.recipes with
    | none =>
      simp only [delete_recipe, get_current_user, hfu, hfr, stateOf]
      exact ⟨⟨hrec, husr⟩, hnu, hnr, hnc, hnl, hns, hnf, hnp⟩
    | some recipe =>
      by_cases hauthz :
          (recipe.author_id != cu.id && !(cu.role == "admin" || cu.role == "moderator")) = true
      · simp only [delete_recipe, get_current_user, hfu, hfr, hauthz, if_true, stateOf]
        exact ⟨⟨hrec, husr⟩, hnu, hnr, hnc, hnl, hns, hnf, hnp⟩
      · have hauthz' :
            (recipe.author_id != cu.id && !(cu.role == "admin" || cu.role == "moderator")) = false := by
          simpa using hauthz
        simp only [delete_recipe, get_current_user, hfu, hfr, hauthz', Bool.false_eq_true,
          if_false, stateOf]
        obtain ⟨R1, R2, hRsplit, hrid, hR1, hR2⟩ := findOne_id_split Recipe.id hfr hnr
        have hdelR : deleteOne (fun r => r.id == rid) db.recipes = R1 ++ R2 := by
          rw [hRsplit]
          exact deleteOne_of_split (fun x hx => by simpa using hR1 x hx) (by simp [hrid])
        rw [hdelR, updateOne_eq_map _ _ _
          (countDocs_id_le_one User.id db.users recipe.author_id hnu)]
        refine ⟨⟨?_, ?_⟩, ?_, ?_, ?_, ?_, ?_, hnf, hnp⟩
        · intro r' hr'
          have hne : r'.id ≠ rid := by
            rcases List.mem_append.mp hr' with h1 | h2
            exacts [hR1 r' h1, hR2 r' h2]
          have hmem : r' ∈ db.recipes := by
            rw [hRsplit]
            rcases List.mem_append.mp hr' with h1 | h2
            exacts [List.mem_append_left _ h1,
              List.mem_append_right _ (List.mem_cons_of_mem _ h2)]
          obtain ⟨hl, hc, hs⟩ := hrec r' hmem
          refine ⟨?_, ?_, ?_⟩
          · rw [hl]
            simp only [likeRows]
            rw [countDocs_deleteMany_of_disjoint]
            intro x hx
            simp only [beq_iff_eq] at hx
            simp [hx]
            exact fun heq => hne heq
          · rw [hc]
            simp only [commentRows]
            rw [countDocs_deleteMany_of_disjoint]
            intro x hx
            simp only [beq_iff_eq] at hx
            simp [hx]
            exact fun heq => hne heq
          · rw [hs]
            simp only [saveRows]
            rw [countDocs_deleteMany_of_disjoint]
            intro x hx
            simp only [beq_iff_eq] at hx
            simp [hx]
            exact fun heq => hne heq
        · intro u' hu'
          rcases List.mem_map.mp hu' with ⟨u, hu, rfl⟩
          obtain ⟨hf1, hf2, hr3⟩ := husr u hu
          by_cases hid : (u.id == recipe.author_id) = true
          · have hueq : u.id = recipe.author_id := by simpa using hid
            simp only [hid, if_true]
            refine ⟨hf1, hf2, ?_⟩
            simp only [ownedRecipeRows] at hr3 ⊢
            rw [hRsplit, countDocs_split] at hr3
            rw [countDocs_append]
            have hcond : (recipe.author_id == u.id) = true := by simp [hueq]
            rw [hcond, if_pos rfl] at hr3
            rw [hr3]
            push_cast
            ring
          · have hid' : (u.id == recipe.author_id) = false := by simpa using hid
            have hune : u.id ≠ recipe.author_id := by simpa using hid'
            simp only [hid', Bool.false_eq_true, if_false]
            refine ⟨hf1, hf2, ?_⟩
            simp only [ownedRecipeRows] at hr3 ⊢
            rw [hRsplit, countDocs_drop_of_noMatch] at hr3
            · exact hr3
            · simp
              exact fun heq => hune heq.symm
        · exact nodup_map_map User.id _ db.users
            (fun x => by by_cases hx : (x.id == recipe.author_id) = true <;> simp [hx]) hnu
        · rw [hRsplit] at hnr
          exact nodup_map_sublist_of_split _ hnr
        · exact nodup_map_deleteMany Comment.id _ hnc
        · exact nodup_map_deleteMany Like.id _ hnl
        · exact nodup_map_deleteMany Save.id _ hns

/-! ## Invariant preservation: follow_user -/

theorem map_updateOne_id (idf : α → β) (p : α → Bool) (f : α → α) (l : List α)
    (hf : ∀ x, idf (f x) = idf x) :
    (updateOne p f l).map idf = l.map idf := by
  induction l with
  | nil => rfl
  | cons x xs ih =>
    by_cases hx : p x = true
    · simp [updateOne, hx, hf x]
    · simp [updateOne, hx, ih]

theorem inv_stateOf_follow (db : DB) (uid target now : Nat) (h : Inv db) :
    Inv (stateOf db (follow_user db uid target now)) := by
  obtain ⟨⟨hrec, husr⟩, hnu, hnr, hnc, hnl, hns, hnf, hnp⟩ := h
  cases hfu : findOne (fun u => u.id == uid) db.users with
  | none =>
    simp only [follow_user, get_current_user, hfu, stateOf]
    exact ⟨⟨hrec, husr⟩, hnu, hnr, hnc, hnl, hns, hnf, hnp⟩
  | some cu =>
    by_cases hself : (target == cu.id) = true
    · simp only [follow_user, get_current_user, hfu, hself, if_true, stateOf]
      exact ⟨⟨hrec, husr⟩, hnu, hnr, hnc, hnl, hns, hnf, hnp⟩
    · have hself' : (target == cu.id) = false := by simpa using hself
      have htne : target ≠ cu.id := by simpa using hself'
      cases hex : findOne
          (fun f => f.follower_id == cu.id && f.following_id == target) db.follows with
      | some e =>
        obtain ⟨hemem, hematch⟩ := findOne_eq_some_mem hex
        have hepair : e.follower_id = cu.id ∧ e.following_id = target := by
          simpa using hematch
        obtain ⟨F1, F2, hFsplit, _, _, hdel⟩ := mem_split_of_nodup Follow.id hemem hnf
        simp only [follow_user, get_current_user, hfu, hself', Bool.false_eq_true, if_false,
          hex, stateOf]
        rw [hdel]
        rw [updateOne_eq_map (fun u : User => u.id == target) _ _
          (countDocs_id_le_one User.id _ target (by
            rw [map_updateOne_id User.id (fun u : User => u.id == cu.id)
              (fun u : User => { u with following_count := u.following_count - 1 })
              db.users (fun x => rfl)]
            exact hnu))]
        rw [updateOne_eq_map (fun u : User => u.id == cu.id) _ db.users
          (countDocs_id_le_one User.id db.users cu.id hnu)]
        refine ⟨⟨?_, ?_⟩, ?_, hnr, hnc, hnl, hns, ?_, hnp⟩
        · intro r hr
          exact hrec r hr
        · intro u'' hu''
          rcases List.mem_map.mp hu'' with ⟨u', hu', rfl⟩
          rcases List.mem_map.mp hu' with ⟨u, hu, rfl⟩
          obtain ⟨hf1, hf2, hr3⟩ := husr u hu
          by_cases h1 : (u.id == cu.id) = true
          · have hueq : u.id = cu.id := by simpa using h1
            have hut : (u.id == target) = false := by
              rw [hueq]
              simp
              exact fun heq => htne heq.symm
            simp only [h1, if_true, hut, Bool.false_eq_true, if_false]
            refine ⟨?_, ?_, hr3⟩
            · simp only [followerRows] at hf1 ⊢
              rw [hFsplit, countDocs_drop_of_noMatch _ _ _ _ (by
                simp [hepair.2, hueq]
                exact fun heq => htne (heq ▸ rfl))] at hf1
              exact hf1
            · simp only [followingRows] at hf2 ⊢
              rw [hFsplit, countDocs_drop_of_match _ _ _ _ (by simp [hepair.1, hueq])] at hf2
              rw [hf2]
              push_cast
              ring
          · have h1' : (u.id == cu.id) = false := by simpa using h1
            have hucne : u.id ≠ cu.id := by simpa using h1'
            simp only [h1', Bool.false_eq_true, if_false]
            by_cases h2 : (u.id == target) = true
            · have huteq : u.id = target := by simpa using h2
              simp only [h2, if_true]
              refine ⟨?_, ?_, hr3⟩
              · simp only [followerRows] at hf1 ⊢
                rw [hFsplit, countDocs_drop_of_match _ _ _ _ (by simp [hepair.2, huteq])] at hf1
                rw [hf1]
                push_cast
                ring
              · simp only [followingRows] at hf2 ⊢
                rw [hFsplit, countDocs_drop_of_noMatch _ _ _ _ (by
                  simp [hepair.1]
                  exact fun heq => hucne heq.symm)] at hf2
                exact hf2
            · have h2' : (u.id == target) = false := by simpa using h2
              have hutne : u.id ≠ target := by simpa using h2'
              simp only [h2', Bool.false_eq_true, if_false]
              refine ⟨?_, ?_, hr3⟩
              · simp only [followerRows] at hf1 ⊢
                rw [hFsplit, countDocs_drop_of_noMatch _ _ _ _ (by
                  simp [hepair.2]
                  exact fun heq => hutne heq.symm)] at hf1
                exact hf1
              · simp only [followingRows] at hf2 ⊢
                rw [hFsplit, countDocs_drop_of_noMatch _ _ _ _ (by
                  simp [hepair.1]
                  exact fun heq => hucne heq.symm)] at hf2
                exact hf2
        · exact nodup_map_map User.id _ _
            (fun x => by by_cases hx : (x.id == target) = true <;> simp [hx])
            (nodup_map_map User.id _ db.users
              (fun x => by by_cases hx : (x.id == cu.id) = true <;> simp [hx]) hnu)
        · rw [hFsplit] at hnf
          exact nodup_map_sublist_of_split _ hnf
      | none =>
        simp only [follow_user, get_current_user, hfu, hself', Bool.false_eq_true, if_false,
          hex, stateOf]
        rw [updateOne_eq_map (fun u : User => u.id == target) _ _
          (countDocs_id_le_one User.id _ target (by
            rw [map_updateOne_id User.id (fun u : User => u.id == cu.id)
              (fun u : User => { u with following_count := u.following_count + 1 })
              db.users (fun x => rfl)]
            exact hnu))]
        rw [updateOne_eq_map (fun u : User => u.id == cu.id) _ db.users
          (countDocs_id_le_one User.id db.users cu.id hnu)]
        refine ⟨⟨?_, ?_⟩, ?_, hnr, hnc, hnl, hns, ?_, hnp⟩
        · intro r hr
          exact hrec r hr
        · intro u'' hu''
          rcases List.mem_map.mp hu'' with ⟨u', hu', rfl⟩
          rcases List.mem_map.mp hu' with ⟨u, hu, rfl⟩
          obtain ⟨hf1, hf2, hr3⟩ := husr u hu
          by_cases h1 : (u.id == cu.id) = true
          · have hueq : u.id = cu.id := by simpa using h1
            have hut : (u.id == target) = false := by
              rw [hueq]
              simp
              exact fun heq => htne heq.symm
            simp only [h1, if_true, hut, Bool.false_eq_true, if_false]
            refine ⟨?_, ?_, hr3⟩
            · simp only [followerRows] at hf1 ⊢
              rw [countDocs_insertOne]
              simp [hf1, hueq]
              exact fun heq => htne (heq ▸ rfl)
            · simp only [followingRows] at hf2 ⊢
              rw [countDocs_insertOne]
              simp [hf2, hueq]
          · have h1' : (u.id == cu.id) = false := by simpa using h1
            have hucne : u.id ≠ cu.id := by simpa using h1'
            simp only [h1', Bool.false_eq_true, if_false]
            by_cases h2 : (u.id == target) = true
            · have huteq : u.id = target := by simpa using h2
              simp only [h2, if_true]
              refine ⟨?_, ?_, hr3⟩
              · simp only [followerRows] at hf1 ⊢
                rw [countDocs_insertOne]
                simp [hf1, huteq]
              · simp only [followingRows] at hf2 ⊢
                rw [countDocs_insertOne]
                simp [hf2]
                exact fun heq => hucne heq.symm
            · have h2' : (u.id == target) = false := by simpa using h2
              have hutne : u.id ≠ target := by simpa using h2'
              simp only [h2', Bool.false_eq_true, if_false]
              refine ⟨?_, ?_, hr3⟩
              · simp only [followerRows] at hf1 ⊢
                rw [countDocs_insertOne]
                simp [hf1]
                exact fun heq => hutne heq.symm
              · simp only [followingRows] at hf2 ⊢
                rw [countDocs_insertOne]
                simp [hf2]
                exact fun heq => hucne heq.symm
        · exact nodup_map_map User.id _ _
            (fun x => by by_cases hx : (x.id == target) = true <;> simp [hx])
            (nodup_map_map User.id _ db.users
              (fun x => by by_cases hx : (x.id == cu.id) = true <;> simp [hx]) hnu)
        · refine nodup_map_insertOne_fresh Follow.id hnf ?_
          intro y hy heq
          exact freshId_not_mem db ((show y.id = freshId db from heq) ▸ mem_allIds_follow_id hy)

/-! ## Claim C1: counter consistency in every reachable state -/

theorem inv_applyOp (db : DB) (op : Op) (h : Inv db) : Inv (applyOp db op) := by
  cases op with
  | opRegister data now => exact inv_stateOf_register db data now h
  | opCreateRecipe uid data now => exact inv_stateOf_create_recipe db uid data now h
  | opUpdateRecipe uid rid data now => exact inv_stateOf_update_recipe db uid rid data now h
  | opDeleteRecipe uid rid => exact inv_stateOf_delete_recipe db uid rid h
  | opLike uid rid now => exact inv_stateOf_like db uid rid now h
  | opSave uid rid now => exact inv_stateOf_save db uid rid now h
  | opFollow uid target now => exact inv_stateOf_follow db uid target now h
  | opCreateComment uid rid text now => exact inv_stateOf_create_comment db uid rid text now h
  | opDeleteComment uid cid => exact inv_stateOf_delete_comment db uid cid h

theorem inv_runOps (db : DB) (ops : List Op) (h : Inv db) : Inv (runOps db ops) := by
  induction ops generalizing db with
  | nil => exact h
  | cons op ops ih => exact ih _ (inv_applyOp db op h)

theorem inv_empty : Inv DB.empty := by
  refine ⟨⟨?_, ?_⟩, ?_, ?_, ?_, ?_, ?_, ?_, ?_⟩ <;> simp [DB.empty]

/-- C1: in every state reachable from the empty store by any sequence of
operations (register, createRecipe, updateRecipe, deleteRecipe,
like/save/follow toggle, createComment, deleteComment), every Recipe's
`likes_count`, `comments_count` and `saves_count` equal the number of
Like/Comment/Save rows with that recipe_id, and every User's
`followers_count`/`following_count`/`recipes_count` equal the matching
Follow-row cardinalities and the number of Recipes owned by that user. -/
theorem C1_counters_consistent_reachable (ops : List Op) :
    countersConsistent (runOps DB.empty ops) :=
  (inv_runOps DB.empty ops inv_empty).1

/-! ## The authorization gate (claim C3) -/

theorem findOne_of_split {p : α → Bool} {l₁ l₂ : List α} {a : α}
    (hl₁ : ∀ x ∈ l₁, p x = false) (hpa : p a = true) :
    findOne p (l₁ ++ a :: l₂) = some a := by
  induction l₁ with
  | nil => simp [findOne, hpa]
  | cons x xs ih =>
    have hx : p x = false := hl₁ x (List.mem_cons_self x xs)
    simp [findOne, hx]
    exact ih fun y hy => hl₁ y (List.mem_cons_of_mem x hy)

/-- The inline denial condition of `update_recipe`/`delete_recipe`/
`delete_comment` is exactly the negation of `canMutate`. -/
theorem denial_eq_not_canMutate (actor : User) (ownerId : Nat) :
    (ownerId != actor.id && !(actor.role == "admin" || actor.role == "moderator"))
      = !canMutate actor ownerId := by
  by_cases h1 : actor.id = ownerId
  · subst h1
    simp [canMutate]
  · have h1' : (actor.id == ownerId) = false := by simpa using h1
    have h1'' : (ownerId == actor.id) = false := by
      simp
      exact fun he => h1 he.symm
    simp [canMutate, h1', h1'', bne]

theorem update_recipe_denied (db : DB) (uid rid : Nat) (data : RecipeCreate) (now : Nat)
    (actor : User) (recipe : Recipe)
    (hactor : findOne (fun u => u.id == uid) db.users = some actor)
    (hrec : findOne (fun r => r.id == rid) db.recipes = some recipe)
    (hcm : canMutate actor recipe.author_id = false) :
    update_recipe db uid rid data now = .error ⟨403, "Not authorized to edit this recipe"⟩ := by
  have hd : (recipe.author_id != actor.id
      && !(actor.role == "admin" || actor.role == "moderator")) = true := by
    rw [denial_eq_not_canMutate, hcm]
    rfl
  simp only [update_recipe, get_current_user, hactor, hrec, hd, if_true]

theorem update_recipe_ok (db : DB) (uid rid : Nat) (data : RecipeCreate) (now : Nat)
    (actor : User) (recipe : Recipe)
    (hactor : findOne (fun u => u.id == uid) db.users = some actor)
    (hrec : findOne (fun r => r.id == rid) db.recipes = some recipe)
    (hcm : canMutate actor recipe.author_id = true) :
    ∃ l₁ l₂, db.recipes = l₁ ++ recipe :: l₂ ∧ (∀ x ∈ l₁, (x.id == rid) = false) ∧
      update_recipe db uid rid data now =
        .ok ({ db with recipes := l₁ ++ applyRecipeUpdate data now recipe :: l₂ },
          applyRecipeUpdate data now recipe) := by
  have hd : (recipe.author_id != actor.id
      && !(actor.role == "admin" || actor.role == "moderator")) = false := by
    rw [denial_eq_not_canMutate, hcm]
    rfl
  obtain ⟨l₁, l₂, hsplit, hpref, hpa⟩ := findOne_eq_some_split hrec
  refine ⟨l₁, l₂, hsplit, hpref, ?_⟩
  simp only [update_recipe, get_current_user, hactor, hrec, hd, Bool.false_eq_true, if_false]
  rw [hsplit, updateOne_of_split hpref hpa,
    findOne_of_split hpref (show ((applyRecipeUpdate data now recipe).id == rid) = true from hpa)]

theorem delete_recipe_denied (db : DB) (uid rid : Nat) (actor : User) (recipe : Recipe)
    (hactor : findOne (fun u => u.id == uid) db.users = some actor)
    (hrec : findOne (fun r => r.id == rid) db.recipes = some recipe)
    (hcm : canMutate actor recipe.author_id = false) :
    delete_recipe db uid rid = .error ⟨403, "Not authorized to delete this recipe"⟩ := by
  have hd : (recipe.author_id != actor.id
      && !(actor.role == "admin" || actor.role == "moderator")) = true := by
    rw [denial_eq_not_canMutate, hcm]
    rfl
  simp only [delete_recipe, get_current_user, hactor, hrec, hd, if_true]

theorem delete_recipe_ok (db : DB) (uid rid : Nat) (actor : User) (recipe : Recipe)
    (hactor : findOne (fun u => u.id == uid) db.users = some actor)
    (hrec : findOne (fun r => r.id == rid) db.recipes = some recipe)
    (hcm : canMutate actor recipe.author_id = true) :
    delete_recipe db uid rid = .ok
      ({ db with
          recipes := deleteOne (fun r => r.id == rid) db.recipes
          comments := deleteMany (fun c => c.recipe_id == rid) db.comments
          likes := deleteMany (fun l => l.recipe_id == rid) db.likes
          saves := deleteMany (fun s => s.recipe_id == rid) db.saves
          users := updateOne (fun u => u.id == recipe.author_id)
            (fun u => { u with recipes_count := u.recipes_count - 1 }) db.users },
        "Recipe deleted successfully") := by
  have hd : (recipe.author_id != actor.id
      && !(actor.role == "admin" || actor.role == "moderator")) = false := by
    rw [denial_eq_not_canMutate, hcm]
    rfl
  simp only [delete_recipe, get_current_user, hactor, hrec, hd, Bool.false_eq_true, if_false]

theorem delete_comment_denied (db : DB) (uid cid : Nat) (actor : User) (comment : Comment)
    (hactor : findOne (fun u => u.id == uid) db.users = some actor)
    (hcom : findOne (fun c => c.id == cid) db.comments = some comment)
    (hcm : canMutate actor comment.user_id = false) :
    delete_comment db uid cid = .error ⟨403, "Not authorized to delete this comment"⟩ := by
  have hd : (comment.user_id != actor.id
      && !(actor.role == "admin" || actor.role == "moderator")) = true := by
    rw [denial_eq_not_canMutate, hcm]
    rfl
  simp only [delete_comment, get_current_user, hactor, hcom, hd, if_true]

theorem delete_comment_ok (db : DB) (uid cid : Nat) (actor : User) (comment : Comment)
    (hactor : findOne (fun u => u.id == uid) db.users = some actor)
    (hcom : findOne (fun c => c.id == cid) db.comments = some comment)
    (hcm : canMutate actor comment.user_id = true) :
    delete_comment db uid cid = .ok
      ({ db with
          comments := deleteOne (fun c => c.id == cid) db.comments
          recipes := updateOne (fun r => r.id == comment.recipe_id)
            (fun r => { r with comments_count := r.comments_count - 1 }) db.recipes },
        "Comment deleted successfully") := by
  have hd : (comment.user_id != actor.id
      && !(actor.role == "admin" || actor.role == "moderator")) = false := by
    rw [denial_eq_not_canMutate, hcm]
    rfl
  simp only [delete_comment, get_current_user, hactor, hcom, hd, Bool.false_eq_true, if_false]

/-- C3: for every acting user and every target resource (Recipe edit,
Recipe delete, Comment delete), the mutation is permitted iff the
actor's id equals the resource owner's id or the actor's role is admin
or moderator; otherwise it fails with the 403 AccessDenied error and
the store is unchanged. -/
theorem C3_canMutate_gate (db : DB) (uid rid cid : Nat) (data : RecipeCreate) (now : Nat)
    (actor : User) (recipe : Recipe) (comment : Comment)
    (hactor : findOne (fun u => u.id == uid) db.users = some actor)
    (hrec : findOne (fun r => r.id == rid) db.recipes = some recipe)
    (hcom : findOne (fun c => c.id == cid) db.comments = some comment) :
    (∀ ownerId : Nat, canMutate actor ownerId = true ↔
      (actor.id = ownerId ∨ actor.role = "admin" ∨ actor.role = "moderator")) ∧
    (canMutate actor recipe.author_id = true →
      (∃ p, update_recipe db uid rid data now = .ok p) ∧
      (∃ q, delete_recipe db uid rid = .ok q)) ∧
    (canMutate actor recipe.author_id = false →
      update_recipe db uid rid data now = .error ⟨403, "Not authorized to edit this recipe"⟩ ∧
      applyOp db (.opUpdateRecipe uid rid data now) = db ∧
      delete_recipe db uid rid = .error ⟨403, "Not authorized to delete this recipe"⟩ ∧
      applyOp db (.opDeleteRecipe uid rid) = db) ∧
    (canMutate actor comment.user_id = true →
      ∃ p, delete_comment db uid cid = .ok p) ∧
    (canMutate actor comment.user_id = false →
      delete_comment db uid cid = .error ⟨403, "Not authorized to delete this comment"⟩ ∧
      applyOp db (.opDeleteComment uid cid) = db) := by
  refine ⟨?_, ?_, ?_, ?_, ?_⟩
  · intro ownerId
    simp [canMutate, or_assoc]
  · intro hcm
    obtain ⟨l₁, l₂, _, _, hupd⟩ := update_recipe_ok db uid rid data now actor recipe
      hactor hrec hcm
    exact ⟨⟨_, hupd⟩, ⟨_, delete_recipe_ok db uid rid actor recipe hactor hrec hcm⟩⟩
  · intro hcm
    have h1 := update_recipe_denied db uid rid data now actor recipe hactor hrec hcm
    have h2 := delete_recipe_denied db uid rid actor recipe hactor hrec hcm
    exact ⟨h1, by simp [applyOp, h1, stateOf], h2, by simp [applyOp, h2, stateOf]⟩
  · intro hcm
    exact ⟨_, delete_comment_ok db uid cid actor comment hactor hcom hcm⟩
  · intro hcm
    have h1 := delete_comment_denied db uid cid actor comment hactor hcom hcm
    exact ⟨h1, by simp [applyOp, h1, stateOf]⟩

theorem C3_witness :
    (findOne (fun u => u.id == 1) wDB.users = some wAlice ∧
     findOne (fun r => r.id == 2) wDB.recipes = some wRecipe ∧
     findOne (fun c => c.id == 3) wDB.comments = some wComment) ∧
    ((∀ ownerId : Nat, canMutate wAlice ownerId = true ↔
        (wAlice.id = ownerId ∨ wAlice.role = "admin" ∨ wAlice.role = "moderator")) ∧
     (canMutate wAlice wRecipe.author_id = true →
        (∃ p, update_recipe wDB 1 2 wData 5 = .ok p) ∧
        (∃ q, delete_recipe wDB 1 2 = .ok q)) ∧
     (canMutate wAlice wRecipe.author_id = false →
        update_recipe wDB 1 2 wData 5 = .error ⟨403, "Not authorized to edit this recipe"⟩ ∧
        applyOp wDB (.opUpdateRecipe 1 2 wData 5) = wDB ∧
        delete_recipe wDB 1 2 = .error ⟨403, "Not authorized to delete this recipe"⟩ ∧
        applyOp wDB (.opDeleteRecipe 1 2) = wDB) ∧
     (canMutate wAlice wComment.user_id = true →
        ∃ p, delete_comment wDB 1 3 = .ok p) ∧
     (canMutate wAlice wComment.user_id = false →
        delete_comment wDB 1 3 = .error ⟨403, "Not authorized to delete this comment"⟩ ∧
        applyOp wDB (.opDeleteComment 1 3) = wDB)) :=
  ⟨⟨by decide, by decide, by decide⟩,
    C3_canMutate_gate wDB 1 2 3 wData 5 wAlice wRecipe wComment
      (by decide) (by decide) (by decide)⟩

/-! ## Claim C5: self-follow always rejected, store untouched -/

/-- C5: for every existing user, a follow request targeting the user's
own id fails with the 400 self-follow error (raised before the Follow
lookup in the handler), and the store — in particular the Follow
collection and every followers_count/following_count — is unchanged. -/
theorem C5_self_follow_rejected (db : DB) (uid now : Nat) (actor : User)
    (hactor : findOne (fun u => u.id == uid) db.users = some actor) :
    follow_user db uid uid now = .error ⟨400, "Cannot follow yourself"⟩ ∧
    applyOp db (.opFollow uid uid now) = db := by
  have hid : actor.id = uid := by simpa using (findOne_eq_some_mem hactor).2
  have hself : (uid == actor.id) = true := by simp [hid]
  have h1 : follow_user db uid uid now = .error ⟨400, "Cannot follow yourself"⟩ := by
    simp only [follow_user, get_current_user, hactor, hself, if_true]
  exact ⟨h1, by simp [applyOp, h1, stateOf]⟩

theorem C5_witness :
    findOne (fun u => u.id == 1) wDB.users = some wAlice ∧
    (follow_user wDB 1 1 7 = .error ⟨400, "Cannot follow yourself"⟩ ∧
     applyOp wDB (.opFollow 1 1 7) = wDB) :=
  ⟨by decide, C5_self_follow_rejected wDB 1 7 wAlice (by decide)⟩

/-! ## Claim C8: first registered user is admin, later ones are users -/

/-- C8: a successful registration stores a new user whose role is admin
exactly when the user count was 0 at creation time, and user otherwise
— regardless of the roles currently held by existing users (the rule
reads the count, not the roles). -/
theorem C8_first_user_admin (db : DB) (data : UserCreate) (now : Nat)
    (hemail : findOne (fun u => u.email == data.email) db.users = none)
    (huser : findOne (fun u => u.username == data.username) db.users = none) :
    ∃ db' newUser, register db data now = .ok (db', newUser) ∧
      db'.users = db.users ++ [newUser] ∧
      newUser.role = (if db.users = [] then "admin" else "user") := by
  simp only [register, hemail, huser]
  refine ⟨_, _, rfl, rfl, ?_⟩
  cases hu : db.users with
  | nil => simp [countDocs]
  | cons x xs => simp [countDocs]

theorem C8_witness :
    (findOne (fun u => u.email == "carol@example.com") DB.empty.users = none ∧
     findOne (fun u => u.username == "carol") DB.empty.users = none ∧
     findOne (fun u => u.email == "carol@example.com") wDB.users = none ∧
     findOne (fun u => u.username == "carol") wDB.users = none) ∧
    (∃ db' newUser,
      register DB.empty ⟨"carol@example.com", "carol", "Carol C", "pw"⟩ 3 = .ok (db', newUser) ∧
      db'.users = DB.empty.users ++ [newUser] ∧
      newUser.role = (if DB.empty.users = [] then "admin" else "user")) ∧
    (∃ db' newUser,
      register wDB ⟨"carol@example.com", "carol", "Carol C", "pw"⟩ 3 = .ok (db', newUser) ∧
      db'.users = wDB.users ++ [newUser] ∧
      newUser.role = (if wDB.users = [] then "admin" else "user")) :=
  ⟨⟨by decide, by decide, by decide, by decide⟩,
    C8_first_user_admin DB.empty ⟨"carol@example.com", "carol", "Carol C", "pw"⟩ 3
      (by decide) (by decide),
    C8_first_user_admin wDB ⟨"carol@example.com", "carol", "Carol C", "pw"⟩ 3
      (by decide) (by decide)⟩

/-! ## Claim C10: createComment never checks the recipe -/

/-- C10: for every authenticated user and every recipe_id — including
one matching no stored Recipe — createComment succeeds (it never
returns NotFound), inserts a Comment row carrying that recipe_id, and
its counter `$inc` is a no-op matching zero documents when the recipe
is absent, leaving a comment row that references no recipe. -/
theorem C10_create_comment_no_notfound (db : DB) (uid rid : Nat) (text : String) (now : Nat)
    (actor : User)
    (hactor : findOne (fun u => u.id == uid) db.users = some actor) :
    ∃ db' c, create_comment db uid rid text now = .ok (db', c) ∧
      c.recipe_id = rid ∧
      db'.comments = db.comments ++ [c] ∧
      db'.recipes = updateOne (fun r => r.id == rid)
        (fun r => { r with comments_count := r.comments_count + 1 }) db.recipes ∧
      db'.users = db.users ∧ db'.likes = db.likes ∧ db'.saves = db.saves ∧
      db'.follows = db.follows ∧ db'.purchases = db.purchases ∧
      (findOne (fun r => r.id == rid) db.recipes = none → db'.recipes = db.recipes) := by
  simp only [create_comment, get_current_user, hactor]
  refine ⟨_, _, rfl, rfl, rfl, rfl, rfl, rfl, rfl, rfl, rfl, ?_⟩
  intro hnone
  exact updateOne_of_none hnone

theorem C10_witness :
    findOne (fun u => u.id == 1) wDB.users = some wAlice ∧
    (∃ db' c, create_comment wDB 1 99 "ghost" 8 = .ok (db', c) ∧
      c.recipe_id = 99 ∧
      db'.comments = wDB.comments ++ [c] ∧
      db'.recipes = updateOne (fun r => r.id == 99)
        (fun r => { r with comments_count := r.comments_count + 1 }) wDB.recipes ∧
      db'.users = wDB.users ∧ db'.likes = wDB.likes ∧ db'.saves = wDB.saves ∧
      db'.follows = wDB.follows ∧ db'.purchases = wDB.purchases ∧
      (findOne (fun r => r.id == 99) wDB.recipes = none → db'.recipes = wDB.recipes)) :=
  ⟨by decide, C10_create_comment_no_notfound wDB 1 99 "ghost" 8 wAlice (by decide)⟩

theorem findOne_append_of_none {p : α → Bool} {l₁ : List α} (l₂ : List α)
    (h : findOne p l₁ = none) : findOne p (l₁ ++ l₂) = findOne p l₂ := by
  induction l₁ with
  | nil => rfl
  | cons x xs ih =>
    by_cases hx : p x
    · simp [findOne, hx] at h
    · simp [findOne, hx] at h ⊢
      exact ih h

theorem findOne_map (p : α → Bool) (g : α → α) (l : List α)
    (h : ∀ x, p (g x) = p x) :
    findOne p (l.map g) = (findOne p l).map g := by
  induction l with
  | nil => rfl
  | cons x xs ih =>
    by_cases hx : p x = true
    · simp [findOne, hx, h x]
    · have hx' : p x = false := by simpa using hx
      simp [findOne, hx', h x, ih]

/-- Deleting one element never increases a count. -/
theorem countDocs_le_of_split (q : α → Bool) (l₁ l₂ : List α) (a : α) :
    countDocs q (l₁ ++ l₂) ≤ countDocs q (l₁ ++ a :: l₂) := by
  rw [countDocs_split, countDocs_append]
  by_cases hq : q a <;> simp [hq]

theorem nodup_map_updateOne (idf : α → β) (p : α → Bool) (f : α → α) (l : List α)
    (hf : ∀ x, idf (f x) = idf x) (hn : (l.map idf).Nodup) :
    ((updateOne p f l).map idf).Nodup := by
  rw [map_updateOne_id idf p f l hf]
  exact hn

/-- `find_one` by id through an id-preserving `update_one` on an
id-unique collection acts on the found element. -/
theorem findOne_id_updateOne_map (idf : α → Nat) (i j : Nat) (g : α → α) (l : List α)
    (hn : (l.map idf).Nodup) (hg : ∀ x, idf (g x) = idf x) :
    findOne (fun x => idf x == i) (updateOne (fun x => idf x == j) g l)
      = (findOne (fun x => idf x == i) l).map
          (fun x => if (idf x == j) = true then g x else x) := by
  rw [updateOne_eq_map _ _ _ (countDocs_id_le_one idf l j hn)]
  rw [findOne_map _ _ _ (fun x => by
    by_cases hx : (idf x == j) = true <;> simp [hx, hg x])]

theorem like_id_ne_freshId (db : DB) {y : Like} (hy : y ∈ db.likes) : y.id ≠ freshId db :=
  fun heq => absurd (heq ▸ mem_allIds_like_id hy) (freshId_not_mem db)

theorem like_twice (db : DB) (uid rid n1 n2 : Nat)
    (hnr : (db.recipes.map Recipe.id).Nodup)
    (hnl : (db.likes.map Like.id).Nodup)
    (hpl : countDocs (fun l => l.recipe_id == rid && l.user_id == uid) db.likes ≤ 1) :
    obsLike (applyOp (applyOp db (.opLike uid rid n1)) (.opLike uid rid n2)) uid rid
        = obsLike db uid rid ∧
    ((applyOp (applyOp db (.opLike uid rid n1)) (.opLike uid rid n2)).recipes.map
      Recipe.id).Nodup ∧
    ((applyOp (applyOp db (.opLike uid rid n1)) (.opLike uid rid n2)).likes.map
      Like.id).Nodup ∧
    countDocs (fun l => l.recipe_id == rid && l.user_id == uid)
      (applyOp (applyOp db (.opLike uid rid n1)) (.opLike uid rid n2)).likes ≤ 1 := by
  cases hfu : findOne (fun u => u.id == uid) db.users with
  | none =>
    have h1 : applyOp db (.opLike uid rid n1) = db := by
      simp [applyOp, like_recipe, get_current_user, hfu, stateOf]
    have h2 : applyOp db (.opLike uid rid n2) = db := by
      simp [applyOp, like_recipe, get_current_user, hfu, stateOf]
    rw [h1, h2]
    exact ⟨rfl, hnr, hnl, hpl⟩
  | some cu =>
    have hcuid : cu.id = uid := by simpa using (findOne_eq_some_mem hfu).2
    subst hcuid
    cases hex : findOne (fun l => l.recipe_id == rid && l.user_id == cu.id) db.likes with
    | none =>
      have hfind2 : findOne (fun l => l.recipe_id == rid && l.user_id == cu.id)
          (insertOne { id := freshId db, recipe_id := rid, user_id := cu.id, created_at := n1 }
            db.likes)
          = some { id := freshId db, recipe_id := rid, user_id := cu.id, created_at := n1 } := by
        rw [insertOne, findOne_append_of_none _ hex]
        simp [findOne]
      have hfresh : ∀ x ∈ db.likes, (x.id == freshId db) = false := by
        intro x hx
        simp
        intro he
        exact absurd (he ▸ mem_allIds_like_id hx) (freshId_not_mem db)
      have hdel2 : deleteOne (fun l => l.id == freshId db)
          (insertOne { id := freshId db, recipe_id := rid, user_id := cu.id, created_at := n1 }
            db.likes)
          = db.likes := by
        rw [insertOne, deleteOne_of_split hfresh (by simp)]
        simp
      simp only [applyOp, like_recipe, get_current_user, hfu, hex, stateOf, hfind2, hdel2]
      refine ⟨?_, ?_, hnl, hpl⟩
      · simp only [obsLike, hex]
        refine Prod.ext rfl ?_
        simp only []
        rw [findOne_id_updateOne_map Recipe.id rid rid
            (fun r : Recipe => { r with likes_count := r.likes_count - 1 }) _
            (nodup_map_updateOne Recipe.id (fun r => r.id == rid)
              (fun r : Recipe => { r with likes_count := r.likes_count + 1 }) db.recipes
              (fun x => rfl) hnr)
            (fun x => rfl)]
        rw [findOne_id_updateOne_map Recipe.id rid rid
            (fun r : Recipe => { r with likes_count := r.likes_count + 1 }) db.recipes
            hnr (fun x => rfl)]
        cases hf : findOne (fun r => r.id == rid) db.recipes with
        | none => rfl
        | some rec =>
          have hp' : rec.id = rid := by simpa using (findOne_eq_some_mem hf).2
          simp [hp']
      · refine nodup_map_updateOne Recipe.id _ _ _ (fun x => rfl) ?_
        exact nodup_map_updateOne Recipe.id _ _ _ (fun x => rfl) hnr
    | some e =>
      obtain ⟨hemem, hematch⟩ := findOne_eq_some_mem hex
      obtain ⟨L1, L2, hLsplit, _, _, hdel⟩ := mem_split_of_nodup Like.id hemem hnl
      have hLpair : ∀ x ∈ L1 ++ L2,
          (x.recipe_id == rid && x.user_id == cu.id) = false := by
        apply all_false_of_countDocs_eq_zero
        have h1 := hpl
        rw [hLsplit, countDocs_split, hematch] at h1
        simp at h1
        rw [countDocs_append]
        omega
      have hfind2 : findOne (fun l => l.recipe_id == rid && l.user_id == cu.id) (L1 ++ L2)
          = none := findOne_eq_none_iff.mpr hLpair
      simp only [applyOp, like_recipe, get_current_user, hfu, hex, stateOf, hdel, hfind2]
      have hnl2 : ((L1 ++ L2).map Like.id).Nodup := by
        rw [hLsplit] at hnl
        exact nodup_map_sublist_of_split _ hnl
      refine ⟨?_, ?_, ?_, ?_⟩
      · simp only [obsLike, hex]
        refine Prod.ext ?_ ?_
        · simp only []
          rw [insertOne, findOne_append_of_none _ hfind2]
          simp [findOne]
        · simp only []
          rw [findOne_id_updateOne_map Recipe.id rid rid
              (fun r : Recipe => { r with likes_count := r.likes_count + 1 }) _
              (nodup_map_updateOne Recipe.id (fun r => r.id == rid)
                (fun r : Recipe => { r with likes_count := r.likes_count - 1 }) db.recipes
                (fun x => rfl) hnr)
              (fun x => rfl)]
          rw [findOne_id_updateOne_map Recipe.id rid rid
              (fun r : Recipe => { r with likes_count := r.likes_count - 1 }) db.recipes
              hnr (fun x => rfl)]
          cases hf : findOne (fun r => r.id == rid) db.recipes with
          | none => rfl
          | some rec =>
            have hp' : rec.id = rid := by simpa using (findOne_eq_some_mem hf).2
            simp [hp']
      · refine nodup_map_updateOne Recipe.id _ _ _ (fun x => rfl) ?_
        exact nodup_map_updateOne Recipe.id _ _ _ (fun x => rfl) hnr
      · exact nodup_map_insertOne_fresh Like.id hnl2
          fun y hy heq => like_id_ne_freshId _ hy heq
      · rw [countDocs_insertOne, countDocs_eq_zero hLpair]
        simp

theorem save_id_ne_freshId (db : DB) {y : Save} (hy : y ∈ db.saves) : y.id ≠ freshId db :=
  fun heq => absurd (heq ▸ mem_allIds_save_id hy) (freshId_not_mem db)

theorem save_twice (db : DB) (uid rid n1 n2 : Nat)
    (hnr : (db.recipes.map Recipe.id).Nodup)
    (hns : (db.saves.map Save.id).Nodup)
    (hps : countDocs (fun l => l.recipe_id == rid && l.user_id == uid) db.saves ≤ 1) :
    obsSave (applyOp (applyOp db (.opSave uid rid n1)) (.opSave uid rid n2)) uid rid
        = obsSave db uid rid ∧
    ((applyOp (applyOp db (.opSave uid rid n1)) (.opSave uid rid n2)).recipes.map
      Recipe.id).Nodup ∧
    ((applyOp (applyOp db (.opSave uid rid n1)) (.opSave uid rid n2)).saves.map
      Save.id).Nodup ∧
    countDocs (fun l => l.recipe_id == rid && l.user_id == uid)
      (applyOp (applyOp db (.opSave uid rid n1)) (.opSave uid rid n2)).saves ≤ 1 := by
  cases hfu : findOne (fun u => u.id == uid) db.users with
  | none =>
    have h1 : applyOp db (.opSave uid rid n1) = db := by
      simp [applyOp, save_recipe, get_current_user, hfu, stateOf]
    have h2 : applyOp db (.opSave uid rid n2) = db := by
      simp [applyOp, save_recipe, get_current_user, hfu, stateOf]
    rw [h1, h2]
    exact ⟨rfl, hnr, hns, hps⟩
  | some cu =>
    have hcuid : cu.id = uid := by simpa using (findOne_eq_some_mem hfu).2
    subst hcuid
    cases hex : findOne (fun l => l.recipe_id == rid && l.user_id == cu.id) db.saves with
    | none =>
      have hfind2 : findOne (fun l => l.recipe_id == rid && l.user_id == cu.id)
          (insertOne { id := freshId db, recipe_id := rid, user_id := cu.id, created_at := n1 }
            db.saves)
          = some { id := freshId db, recipe_id := rid, user_id := cu.id, created_at := n1 } := by
        rw [insertOne, findOne_append_of_none _ hex]
        simp [findOne]
      have hfresh : ∀ x ∈ db.saves, (x.id == freshId db) = false := by
        intro x hx
        simp
        intro he
        exact absurd (he ▸ mem_allIds_save_id hx) (freshId_not_mem db)
      have hdel2 : deleteOne (fun l => l.id == freshId db)
          (insertOne { id := freshId db, recipe_id := rid, user_id := cu.id, created_at := n1 }
            db.saves)
          = db.saves := by
        rw [insertOne, deleteOne_of_split hfresh (by simp)]
        simp
      simp only [applyOp, save_recipe, get_current_user, hfu, hex, stateOf, hfind2, hdel2]
      refine ⟨?_, ?_, hns, hps⟩
      · simp only [obsSave, hex]
        refine Prod.ext rfl ?_
        simp only []
        rw [findOne_id_updateOne_map Recipe.id rid rid
            (fun r : Recipe => { r with saves_count := r.saves_count - 1 }) _
            (nodup_map_updateOne Recipe.id (fun r => r.id == rid)
              (fun r : Recipe => { r with saves_count := r.saves_count + 1 }) db.recipes
              (fun x => rfl) hnr)
            (fun x => rfl)]
        rw [findOne_id_updateOne_map Recipe.id rid rid
            (fun r : Recipe => { r with saves_count := r.saves_count + 1 }) db.recipes
            hnr (fun x => rfl)]
        cases hf : findOne (fun r => r.id == rid) db.recipes with
        | none => rfl
        | some rec =>
          have hp' : rec.id = rid := by simpa using (findOne_eq_some_mem hf).2
          simp [hp']
      · refine nodup_map_updateOne Recipe.id _ _ _ (fun x => rfl) ?_
        exact nodup_map_updateOne Recipe.id _ _ _ (fun x => rfl) hnr
    | some e =>
      obtain ⟨hemem, hematch⟩ := findOne_eq_some_mem hex
      obtain ⟨L1, L2, hLsplit, _, _, hdel⟩ := mem_split_of_nodup Save.id hemem hns
      have hLpair : ∀ x ∈ L1 ++ L2,
          (x.recipe_id == rid && x.user_id == cu.id) = false := by
        apply all_false_of_countDocs_eq_zero
        have h1 := hps
        rw [hLsplit, countDocs_split, hematch] at h1
        simp at h1
        rw [countDocs_append]
        omega
      have hfind2 : findOne (fun l => l.recipe_id == rid && l.user_id == cu.id) (L1 ++ L2)
          = none := findOne_eq_none_iff.mpr hLpair
      simp only [applyOp, save_recipe, get_current_user, hfu, hex, stateOf, hdel, hfind2]
      have hns2 : ((L1 ++ L2).map Save.id).Nodup := by
        rw [hLsplit] at hns
        exact nodup_map_sublist_of_split _ hns
      refine ⟨?_, ?_, ?_, ?_⟩
      · simp only [obsSave, hex]
        refine Prod.ext ?_ ?_
        · simp only []
          rw [insertOne, findOne_append_of_none _ hfind2]
          simp [findOne]
        · simp only []
          rw [findOne_id_updateOne_map Recipe.id rid rid
              (fun r : Recipe => { r with saves_count := r.saves_count + 1 }) _
              (nodup_map_updateOne Recipe.id (fun r => r.id == rid)
                (fun r : Recipe => { r with saves_count := r.saves_count - 1 }) db.recipes
                (fun x => rfl) hnr)
              (fun x => rfl)]
          rw [findOne_id_updateOne_map Recipe.id rid rid
              (fun r : Recipe => { r with saves_count := r.saves_count - 1 }) db.recipes
              hnr (fun x => rfl)]
          cases hf : findOne (fun r => r.id == rid) db.recipes with
          | none => rfl
          | some rec =>
            have hp' : rec.id = rid := by simpa using (findOne_eq_some_mem hf).2
            simp [hp']
      · refine nodup_map_updateOne Recipe.id _ _ _ (fun x => rfl) ?_
        exact nodup_map_updateOne Recipe.id _ _ _ (fun x => rfl) hnr
      · exact nodup_map_insertOne_fresh Save.id hns2
          fun y hy heq => save_id_ne_freshId _ hy heq
      · rw [countDocs_insertOne, countDocs_eq_zero hLpair]
        simp

theorem follow_id_ne_freshId (db : DB) {y : Follow} (hy : y ∈ db.follows) :
    y.id ≠ freshId db :=
  fun heq => absurd (heq ▸ mem_allIds_follow_id hy) (freshId_not_mem db)

/-- `find_one` by id through four nested id-preserving `update_one`s on
an id-unique user collection acts pointwise on the found element. -/
theorem findOne_id_update4 (i j1 j2 j3 j4 : Nat) (g1 g2 g3 g4 : User → User) (l : List User)
    (hn : (l.map User.id).Nodup)
    (h1 : ∀ x, (g1 x).id = x.id) (h2 : ∀ x, (g2 x).id = x.id)
    (h3 : ∀ x, (g3 x).id = x.id) (h4 : ∀ x, (g4 x).id = x.id) :
    findOne (fun u => u.id == i)
        (updateOne (fun u => u.id == j4) g4
          (updateOne (fun u => u.id == j3) g3
            (updateOne (fun u => u.id == j2) g2
              (updateOne (fun u => u.id == j1) g1 l))))
      = (findOne (fun u => u.id == i) l).map
          (fun x =>
            (fun y => if (y.id == j4) = true then g4 y else y)
              ((fun y => if (y.id == j3) = true then g3 y else y)
                ((fun y => if (y.id == j2) = true then g2 y else y)
                  ((fun y => if (y.id == j1) = true then g1 y else y) x)))) := by
  have hn1 := nodup_map_updateOne User.id (fun u => u.id == j1) g1 l h1 hn
  have hn2 := nodup_map_updateOne User.id (fun u => u.id == j2) g2 _ h2 hn1
  have hn3 := nodup_map_updateOne User.id (fun u => u.id == j3) g3 _ h3 hn2
  rw [findOne_id_updateOne_map User.id i j4 g4 _ hn3 h4]
  rw [findOne_id_updateOne_map User.id i j3 g3 _ hn2 h3]
  rw [findOne_id_updateOne_map User.id i j2 g2 _ hn1 h2]
  rw [findOne_id_updateOne_map User.id i j1 g1 l hn h1]
  cases findOne (fun u => u.id == i) l <;> rfl

theorem follow_twice (db : DB) (uid target n1 n2 : Nat)
    (hnu : (db.users.map User.id).Nodup)
    (hnf : (db.follows.map Follow.id).Nodup)
    (hpf : countDocs (fun f => f.follower_id == uid && f.following_id == target)
      db.follows ≤ 1) :
    obsFollow (applyOp (applyOp db (.opFollow uid target n1)) (.opFollow uid target n2))
        uid target = obsFollow db uid target ∧
    ((applyOp (applyOp db (.opFollow uid target n1)) (.opFollow uid target n2)).users.map
      User.id).Nodup ∧
    ((applyOp (applyOp db (.opFollow uid target n1)) (.opFollow uid target n2)).follows.map
      Follow.id).Nodup ∧
    countDocs (fun f => f.follower_id == uid && f.following_id == target)
      (applyOp (applyOp db (.opFollow uid target n1)) (.opFollow uid target n2)).follows
        ≤ 1 := by
  cases hfu : findOne (fun u => u.id == uid) db.users with
  | none =>
    have h1 : applyOp db (.opFollow uid target n1) = db := by
      simp [applyOp, follow_user, get_current_user, hfu, stateOf]
    have h2 : applyOp db (.opFollow uid target n2) = db := by
      simp [applyOp, follow_user, get_current_user, hfu, stateOf]
    rw [h1, h2]
    exact ⟨rfl, hnu, hnf, hpf⟩
  | some cu =>
    have hcuid : cu.id = uid := by simpa using (findOne_eq_some_mem hfu).2
    subst hcuid
    by_cases hself : (target == cu.id) = true
    · have h1 : applyOp db (.opFollow cu.id target n1) = db := by
        simp [applyOp, follow_user, get_current_user, hfu, hself, stateOf]
      have h2 : applyOp db (.opFollow cu.id target n2) = db := by
        simp [applyOp, follow_user, get_current_user, hfu, hself, stateOf]
      rw [h1, h2]
      exact ⟨rfl, hnu, hnf, hpf⟩
    · have hself' : (target == cu.id) = false := by simpa using hself
      have htne : target ≠ cu.id := by simpa using hself'
      have hcutar : (cu.id == target) = false := by
        simp
        exact fun h => htne h.symm
      have hcutar2 : ¬cu.id = target := fun h => htne h.symm
      cases hex : findOne (fun f => f.follower_id == cu.id && f.following_id == target)
          db.follows with
      | none =>
        have hfind2 : findOne (fun f => f.follower_id == cu.id && f.following_id == target)
            (insertOne { id := freshId db, follower_id := cu.id, following_id := target, created_at := n1 } db.follows)
            = some { id := freshId db, follower_id := cu.id, following_id := target, created_at := n1 } := by
          rw [insertOne, findOne_append_of_none _ hex]
          simp [findOne]
        have hfreshf : ∀ x ∈ db.follows, (x.id == freshId db) = false := by
          intro x hx
          simp
          intro he
          exact absurd (he ▸ mem_allIds_follow_id hx) (freshId_not_mem db)
        have hdel2 : deleteOne (fun f => f.id == freshId db)
            (insertOne { id := freshId db, follower_id := cu.id, following_id := target, created_at := n1 } db.follows)
            = db.follows := by
          rw [insertOne, deleteOne_of_split hfreshf (by simp)]
          simp
        have hcu2 : findOne (fun u => u.id == cu.id)
            (updateOne (fun u => u.id == target)
              (fun u => { u with followers_count := u.followers_count + 1 })
              (updateOne (fun u => u.id == cu.id)
                (fun u => { u with following_count := u.following_count + 1 }) db.users))
            = some { cu with following_count := cu.following_count + 1 } := by
          rw [findOne_id_updateOne_map User.id cu.id target
              (fun u : User => { u with followers_count := u.followers_count + 1 }) _
              (nodup_map_updateOne User.id (fun u => u.id == cu.id)
                (fun u : User => { u with following_count := u.following_count + 1 })
                db.users (fun x => rfl) hnu)
              (fun x => rfl)]
          rw [findOne_id_updateOne_map User.id cu.id cu.id
              (fun u : User => { u with following_count := u.following_count + 1 })
              db.users hnu (fun x => rfl)]
          rw [hfu]
          simp [hcutar, hcutar2]
        simp only [applyOp, follow_user, get_current_user, hfu, hself', Bool.false_eq_true,
          if_false, hex, stateOf, hcu2, hfind2, hdel2]
        refine ⟨?_, ?_, hnf, hpf⟩
        · simp only [obsFollow, hex]
          refine Prod.ext rfl (Prod.ext ?_ ?_)
          · simp only []
            rw [findOne_id_update4 cu.id cu.id target cu.id target
                (fun u : User => { u with following_count := u.following_count + 1 })
                (fun u : User => { u with followers_count := u.followers_count + 1 })
                (fun u : User => { u with following_count := u.following_count - 1 })
                (fun u : User => { u with followers_count := u.followers_count - 1 })
                db.users hnu (fun x => rfl) (fun x => rfl) (fun x => rfl) (fun x => rfl)]
            rw [hfu]
            simp [hcutar, hcutar2]
          · simp only []
            rw [findOne_id_update4 target cu.id target cu.id target
                (fun u : User => { u with following_count := u.following_count + 1 })
                (fun u : User => { u with followers_count := u.followers_count + 1 })
                (fun u : User => { u with following_count := u.following_count - 1 })
                (fun u : User => { u with followers_count := u.followers_count - 1 })
                db.users hnu (fun x => rfl) (fun x => rfl) (fun x => rfl) (fun x => rfl)]
            cases hft : findOne (fun u => u.id == target) db.users with
            | none => rfl
            | some ut =>
              have htu : ut.id = target := by simpa using (findOne_eq_some_mem hft).2
              have hutcu : (ut.id == cu.id) = false := by
                rw [htu]
                exact hself'
              simp [htu, hutcu, hself', htne, hcutar2]
        · refine nodup_map_updateOne User.id _ _ _ (fun x => rfl) ?_
          refine nodup_map_updateOne User.id _ _ _ (fun x => rfl) ?_
          refine nodup_map_updateOne User.id _ _ _ (fun x => rfl) ?_
          exact nodup_map_updateOne User.id _ _ _ (fun x => rfl) hnu
      | some e =>
        obtain ⟨hemem, hematch⟩ := findOne_eq_some_mem hex
        obtain ⟨F1, F2, hFsplit, _, _, hdel⟩ := mem_split_of_nodup Follow.id hemem hnf
        have hFpair : ∀ x ∈ F1 ++ F2,
            (x.follower_id == cu.id && x.following_id == target) = false := by
          apply all_false_of_countDocs_eq_zero
          have h1 := hpf
          rw [hFsplit, countDocs_split, hematch] at h1
          simp at h1
          rw [countDocs_append]
          omega
        have hfind2 : findOne (fun f => f.follower_id == cu.id && f.following_id == target)
            (F1 ++ F2) = none := findOne_eq_none_iff.mpr hFpair
        have hcu2 : findOne (fun u => u.id == cu.id)
            (updateOne (fun u => u.id == target)
              (fun u => { u with followers_count := u.followers_count - 1 })
              (updateOne (fun u => u.id == cu.id)
                (fun u => { u with following_count := u.following_count - 1 }) db.users))
            = some { cu with following_count := cu.following_count - 1 } := by
          rw [findOne_id_updateOne_map User.id cu.id target
              (fun u : User => { u with followers_count := u.followers_count - 1 }) _
              (nodup_map_updateOne User.id (fun u => u.id == cu.id)
                (fun u : User => { u with following_count := u.following_count - 1 })
                db.users (fun x => rfl) hnu)
              (fun x => rfl)]
          rw [findOne_id_updateOne_map User.id cu.id cu.id
              (fun u : User => { u with following_count := u.following_count - 1 })
              db.users hnu (fun x => rfl)]
          rw [hfu]
          simp [hcutar, hcutar2]
        simp only [applyOp, follow_user, get_current_user, hfu, hself', Bool.false_eq_true,
          if_false, hex, stateOf, hdel, hcu2, hfind2]
        have hnf2 : ((F1 ++ F2).map Follow.id).Nodup := by
          rw [hFsplit] at hnf
          exact nodup_map_sublist_of_split _ hnf
        refine ⟨?_, ?_, ?_, ?_⟩
        · simp only [obsFollow, hex]
          refine Prod.ext ?_ (Prod.ext ?_ ?_)
          · simp only []
            rw [insertOne, findOne_append_of_none _ hfind2]
            simp [findOne]
          · simp only []
            rw [findOne_id_update4 cu.id cu.id target cu.id target
                (fun u : User => { u with following_count := u.following_count - 1 })
                (fun u : User => { u with followers_count := u.followers_count - 1 })
                (fun u : User => { u with following_count := u.following_count + 1 })
                (fun u : User => { u with followers_count := u.followers_count + 1 })
                db.users hnu (fun x => rfl) (fun x => rfl) (fun x => rfl) (fun x => rfl)]
            rw [hfu]
            simp [hcutar, hcutar2]
          · simp only []
            rw [findOne_id_update4 target cu.id target cu.id target
                (fun u : User => { u with following_count := u.following_count - 1 })
                (fun u : User => { u with followers_count := u.followers_count - 1 })
                (fun u : User => { u with following_count := u.following_count + 1 })
                (fun u : User => { u with followers_count := u.followers_count + 1 })
                db.users hnu (fun x => rfl) (fun x => rfl) (fun x => rfl) (fun x => rfl)]
            cases hft : findOne (fun u => u.id == target) db.users with
            | none => rfl
            | some ut =>
              have htu : ut.id = target := by simpa using (findOne_eq_some_mem hft).2
              have hutcu : (ut.id == cu.id) = false := by
                rw [htu]
                exact hself'
              simp [htu, hutcu, hself', htne, hcutar2]
        · refine nodup_map_updateOne User.id _ _ _ (fun x => rfl) ?_
          refine nodup_map_updateOne User.id _ _ _ (fun x => rfl) ?_
          refine nodup_map_updateOne User.id _ _ _ (fun x => rfl) ?_
          exact nodup_map_updateOne User.id _ _ _ (fun x => rfl) hnu
        · exact nodup_map_insertOne_fresh Follow.id hnf2
            fun y hy heq => follow_id_ne_freshId _ hy heq
        · rw [countDocs_insertOne, countDocs_eq_zero hFpair]
          simp

theorem runLikes_even (uid rid : Nat) :
    ∀ (ts : List Nat), Even ts.length → ∀ db : DB,
      (db.recipes.map Recipe.id).Nodup → (db.likes.map Like.id).Nodup →
      countDocs (fun l => l.recipe_id == rid && l.user_id == uid) db.likes ≤ 1 →
      obsLike (runLikes uid rid ts db) uid rid = obsLike db uid rid
  | [], _, _, _, _, _ => rfl
  | [t], h, _, _, _, _ => absurd h (by rw [List.length_cons, List.length_nil]; decide)
  | t1 :: t2 :: rest, h, db, hnr, hnl, hpl => by
    have h' : Even rest.length := by
      rw [List.length_cons, List.length_cons, Nat.even_iff] at h
      rw [Nat.even_iff]
      omega
    obtain ⟨hobs, hnr2, hnl2, hpl2⟩ := like_twice db uid rid t1 t2 hnr hnl hpl
    have hstep : runLikes uid rid (t1 :: t2 :: rest) db
        = runLikes uid rid rest
            (applyOp (applyOp db (.opLike uid rid t1)) (.opLike uid rid t2)) := rfl
    rw [hstep, runLikes_even uid rid rest h' _ hnr2 hnl2 hpl2, hobs]

theorem runSaves_even (uid rid : Nat) :
    ∀ (ts : List Nat), Even ts.length → ∀ db : DB,
      (db.recipes.map Recipe.id).Nodup → (db.saves.map Save.id).Nodup →
      countDocs (fun s => s.recipe_id == rid && s.user_id == uid) db.saves ≤ 1 →
      obsSave (runSaves uid rid ts db) uid rid = obsSave db uid rid
  | [], _, _, _, _, _ => rfl
  | [t], h, _, _, _, _ => absurd h (by rw [List.length_cons, List.length_nil]; decide)
  | t1 :: t2 :: rest, h, db, hnr, hns, hps => by
    have h' : Even rest.length := by
      rw [List.length_cons, List.length_cons, Nat.even_iff] at h
      rw [Nat.even_iff]
      omega
    obtain ⟨hobs, hnr2, hns2, hps2⟩ := save_twice db uid rid t1 t2 hnr hns hps
    have hstep : runSaves uid rid (t1 :: t2 :: rest) db
        = runSaves uid rid rest
            (applyOp (applyOp db (.opSave uid rid t1)) (.opSave uid rid t2)) := rfl
    rw [hstep, runSaves_even uid rid rest h' _ hnr2 hns2 hps2, hobs]

theorem runFollows_even (uid target : Nat) :
    ∀ (ts : List Nat), Even ts.length → ∀ db : DB,
      (db.users.map User.id).Nodup → (db.follows.map Follow.id).Nodup →
      countDocs (fun f => f.follower_id == uid && f.following_id == target) db.follows ≤ 1 →
      obsFollow (runFollows uid target ts db) uid target = obsFollow db uid target
  | [], _, _, _, _, _ => rfl
  | [t], h, _, _, _, _ => absurd h (by rw [List.length_cons, List.length_nil]; decide)
  | t1 :: t2 :: rest, h, db, hnu, hnf, hpf => by
    have h' : Even rest.length := by
      rw [List.length_cons, List.length_cons, Nat.even_iff] at h
      rw [Nat.even_iff]
      omega
    obtain ⟨hobs, hnu2, hnf2, hpf2⟩ := follow_twice db uid target t1 t2 hnu hnf hpf
    have hstep : runFollows uid target (t1 :: t2 :: rest) db
        = runFollows uid target rest
            (applyOp (applyOp db (.opFollow uid target t1)) (.opFollow uid target t2)) := rfl
    rw [hstep, runFollows_even uid target rest h' _ hnu2 hnf2 hpf2, hobs]

/-- C2: for every actor, target and starting state (well-formed: unique
document ids and at most one relation row for the pair, the store's
uniqueness invariant), performing the same toggle (like, save or
follow) an even number of times restores the original observation: the
relation row's presence/absence and the affected counter values (the
recipe's likes_count/saves_count, the actor's following_count and the
target's followers_count) equal their original values. -/
theorem C2_toggle_even_restores (db : DB) (uid rid target : Nat) (ts : List Nat)
    (hlen : Even ts.length)
    (hnu : (db.users.map User.id).Nodup)
    (hnr : (db.recipes.map Recipe.id).Nodup)
    (hnl : (db.likes.map Like.id).Nodup)
    (hns : (db.saves.map Save.id).Nodup)
    (hnf : (db.follows.map Follow.id).Nodup)
    (hpl : countDocs (fun l => l.recipe_id == rid && l.user_id == uid) db.likes ≤ 1)
    (hps : countDocs (fun s => s.recipe_id == rid && s.user_id == uid) db.saves ≤ 1)
    (hpf : countDocs (fun f => f.follower_id == uid && f.following_id == target)
      db.follows ≤ 1) :
    obsLike (runLikes uid rid ts db) uid rid = obsLike db uid rid ∧
    obsSave (runSaves uid rid ts db) uid rid = obsSave db uid rid ∧
    obsFollow (runFollows uid target ts db) uid target = obsFollow db uid target :=
  ⟨runLikes_even uid rid ts hlen db hnr hnl hpl,
   runSaves_even uid rid ts hlen db hnr hns hps,
   runFollows_even uid target ts hlen db hnu hnf hpf⟩

theorem C2_witness :
    (Even [10, 11].length ∧
     (wDB.users.map User.id).Nodup ∧
     (wDB.recipes.map Recipe.id).Nodup ∧
     (wDB.likes.map Like.id).Nodup ∧
     (wDB.saves.map Save.id).Nodup ∧
     (wDB.follows.map Follow.id).Nodup ∧
     countDocs (fun l => l.recipe_id == 2 && l.user_id == 4) wDB.likes ≤ 1 ∧
     countDocs (fun s => s.recipe_id == 2 && s.user_id == 4) wDB.saves ≤ 1 ∧
     countDocs (fun f => f.follower_id == 4 && f.following_id == 1) wDB.follows ≤ 1) ∧
    (obsLike (runLikes 4 2 [10, 11] wDB) 4 2 = obsLike wDB 4 2 ∧
     obsSave (runSaves 4 2 [10, 11] wDB) 4 2 = obsSave wDB 4 2 ∧
     obsFollow (runFollows 4 1 [10, 11] wDB) 4 1 = obsFollow wDB 4 1) :=
  ⟨⟨by decide, by decide, by decide, by decide, by decide, by decide, by decide, by decide,
    by decide⟩,
   C2_toggle_even_restores wDB 4 2 1 [10, 11] (by decide) (by decide) (by decide) (by decide)
     (by decide) (by decide) (by decide) (by decide) (by decide)⟩

/-! ## Claim C9: updateRecipe is a frame on flags and counters -/

/-- C9: a successful updateRecipe modifies only the payload fields and
updated_at: the stored recipe keeps its is_approved and is_featured
flags, its likes/comments/saves counters, its identity/author fields
and created_at; all other collections and all other recipes are
untouched. -/
theorem C9_update_preserves_flags_counters (db : DB) (uid rid : Nat) (data : RecipeCreate)
    (now : Nat) (actor : User) (recipe : Recipe)
    (hactor : findOne (fun u => u.id == uid) db.users = some actor)
    (hrec : findOne (fun r => r.id == rid) db.recipes = some recipe)
    (hcm : canMutate actor recipe.author_id = true) :
    ∃ db' rec', update_recipe db uid rid data now = .ok (db', rec') ∧
      findOne (fun r => r.id == rid) db'.recipes = some rec' ∧
      rec'.is_approved = recipe.is_approved ∧ rec'.is_featured = recipe.is_featured ∧
      rec'.likes_count = recipe.likes_count ∧ rec'.comments_count = recipe.comments_count ∧
      rec'.saves_count = recipe.saves_count ∧
      rec'.id = recipe.id ∧ rec'.author_id = recipe.author_id ∧
      rec'.author_username = recipe.author_username ∧
      rec'.author_profile_image = recipe.author_profile_image ∧
      rec'.author_role = recipe.author_role ∧ rec'.created_at = recipe.created_at ∧
      rec'.title = data.title ∧ rec'.description = data.description ∧
      rec'.image = data.image ∧ rec'.ingredients = data.ingredients ∧
      rec'.steps = data.steps ∧ rec'.cooking_time_minutes = data.cooking_time_minutes ∧
      rec'.servings = data.servings ∧ rec'.difficulty = data.difficulty ∧
      rec'.category = data.category ∧ rec'.tags = data.tags ∧
      rec'.is_paid = data.is_paid ∧ rec'.price = data.price ∧ rec'.updated_at = now ∧
      db'.users = db.users ∧ db'.comments = db.comments ∧ db'.likes = db.likes ∧
      db'.saves = db.saves ∧ db'.follows = db.follows ∧ db'.purchases = db.purchases ∧
      (∀ r ∈ db.recipes, r.id ≠ rid → r ∈ db'.recipes) := by
  obtain ⟨l₁, l₂, hsplit, hpref, hok⟩ := update_recipe_ok db uid rid data now actor recipe
    hactor hrec hcm
  have hpa : (recipe.id == rid) = true := by
    have := hrec
    rw [hsplit] at this
    rw [hsplit] at hrec
    exact (findOne_eq_some_mem hrec).2
  refine ⟨_, _, hok, ?_, rfl, rfl, rfl, rfl, rfl, rfl, rfl, rfl, rfl, rfl, rfl, rfl, rfl,
    rfl, rfl, rfl, rfl, rfl, rfl, rfl, rfl, rfl, rfl, rfl, rfl, rfl, rfl, rfl, rfl, rfl, ?_⟩
  · exact findOne_of_split hpref
      (show ((applyRecipeUpdate data now recipe).id == rid) = true from hpa)
  · intro r hr hne
    rw [hsplit] at hr
    rcases List.mem_append.mp hr with h1 | h2
    · exact List.mem_append_left _ h1
    · rcases List.mem_cons.mp h2 with rfl | h2
      · exact absurd (by simpa using hpa) hne
      · exact List.mem_append_right _ (List.mem_cons_of_mem _ h2)

theorem C9_witness :
    (findOne (fun u => u.id == 1) wDB.users = some wAlice ∧
     findOne (fun r => r.id == 2) wDB.recipes = some wRecipe ∧
     canMutate wAlice wRecipe.author_id = true) ∧
    (∃ db' rec', update_recipe wDB 1 2 wData 5 = .ok (db', rec') ∧
      findOne (fun r => r.id == 2) db'.recipes = some rec' ∧
      rec'.is_approved = wRecipe.is_approved ∧ rec'.is_featured = wRecipe.is_featured ∧
      rec'.likes_count = wRecipe.likes_count ∧ rec'.comments_count = wRecipe.comments_count ∧
      rec'.saves_count = wRecipe.saves_count ∧
      rec'.id = wRecipe.id ∧ rec'.author_id = wRecipe.author_id ∧
      rec'.author_username = wRecipe.author_username ∧
      rec'.author_profile_image = wRecipe.author_profile_image ∧
      rec'.author_role = wRecipe.author_role ∧ rec'.created_at = wRecipe.created_at ∧
      rec'.title = wData.title ∧ rec'.description = wData.description ∧
      rec'.image = wData.image ∧ rec'.ingredients = wData.ingredients ∧
      rec'.steps = wData.steps ∧ rec'.cooking_time_minutes = wData.cooking_time_minutes ∧
      rec'.servings = wData.servings ∧ rec'.difficulty = wData.difficulty ∧
      rec'.category = wData.category ∧ rec'.tags = wData.tags ∧
      rec'.is_paid = wData.is_paid ∧ rec'.price = wData.price ∧ rec'.updated_at = 5 ∧
      db'.users = wDB.users ∧ db'.comments = wDB.comments ∧ db'.likes = wDB.likes ∧
      db'.saves = wDB.saves ∧ db'.follows = wDB.follows ∧ db'.purchases = wDB.purchases ∧
      (∀ r ∈ wDB.recipes, r.id ≠ 2 → r ∈ db'.recipes)) :=
  ⟨⟨by decide, by decide, by decide⟩,
    C9_update_preserves_flags_counters wDB 1 2 wData 5 wAlice wRecipe
      (by decide) (by decide) (by decide)⟩

/-! ## Claim C4: deleteRecipe cascades and decrements by exactly one -/

/-- C4: for every recipe and authorized actor, deleteRecipe removes the
Recipe and every Comment/Like/Save row referencing it (and nothing
else), decrements the author's recipes_count by exactly 1 regardless of
how many relation rows existed, and a subsequent get_recipe returns
NotFound. -/
theorem C4_delete_recipe_cascades (db : DB) (uid rid : Nat) (actor author : User)
    (recipe : Recipe)
    (hactor : findOne (fun u => u.id == uid) db.users = some actor)
    (hrec : findOne (fun r => r.id == rid) db.recipes = some recipe)
    (hcm : canMutate actor recipe.author_id = true)
    (hnr : (db.recipes.map Recipe.id).Nodup)
    (hauthor : findOne (fun u => u.id == recipe.author_id) db.users = some author) :
    ∃ db', delete_recipe db uid rid = .ok (db', "Recipe deleted successfully") ∧
      get_recipe db' rid = .error ⟨404, "Recipe not found"⟩ ∧
      (∀ c ∈ db'.comments, c.recipe_id ≠ rid) ∧
      (∀ c ∈ db.comments, c.recipe_id ≠ rid → c ∈ db'.comments) ∧
      (∀ l ∈ db'.likes, l.recipe_id ≠ rid) ∧
      (∀ l ∈ db.likes, l.recipe_id ≠ rid → l ∈ db'.likes) ∧
      (∀ s ∈ db'.saves, s.recipe_id ≠ rid) ∧
      (∀ s ∈ db.saves, s.recipe_id ≠ rid → s ∈ db'.saves) ∧
      findOne (fun u => u.id == recipe.author_id) db'.users
        = some { author with recipes_count := author.recipes_count - 1 } := by
  obtain ⟨R1, R2, hRsplit, hrid, hR1, hR2⟩ := findOne_id_split Recipe.id hrec hnr
  have hdel : deleteOne (fun r => r.id == rid) db.recipes = R1 ++ R2 := by
    rw [hRsplit]
    exact deleteOne_of_split (fun x hx => by simpa using hR1 x hx) (by simp [hrid])
  have hnone : findOne (fun r => r.id == rid) (deleteOne (fun r => r.id == rid) db.recipes)
      = none := by
    rw [hdel]
    refine findOne_eq_none_iff.mpr ?_
    intro x hx
    rcases List.mem_append.mp hx with h1 | h2
    · simpa using hR1 x h1
    · simpa using hR2 x h2
  obtain ⟨U1, U2, hUsplit, hUpref, hUpa⟩ := findOne_eq_some_split hauthor
  refine ⟨_, delete_recipe_ok db uid rid actor recipe hactor hrec hcm,
    ?_, ?_, ?_, ?_, ?_, ?_, ?_, ?_⟩
  · simp only [get_recipe, hnone]
  · intro c hc
    simp only [deleteMany, List.mem_filter] at hc
    simpa using hc.2
  · intro c hc hne
    simp only [deleteMany, List.mem_filter]
    exact ⟨hc, by simpa using hne⟩
  · intro l hl
    simp only [deleteMany, List.mem_filter] at hl
    simpa using hl.2
  · intro l hl hne
    simp only [deleteMany, List.mem_filter]
    exact ⟨hl, by simpa using hne⟩
  · intro s hs
    simp only [deleteMany, List.mem_filter] at hs
    simpa using hs.2
  · intro s hs hne
    simp only [deleteMany, List.mem_filter]
    exact ⟨hs, by simpa using hne⟩
  · show findOne (fun u => u.id == recipe.author_id)
      (updateOne (fun u => u.id == recipe.author_id)
        (fun u => { u with recipes_count := u.recipes_count - 1 }) db.users) = _
    rw [hUsplit, updateOne_of_split hUpref hUpa, findOne_of_split hUpref
      (show (({ author with recipes_count := author.recipes_count - 1 } : User).id
        == recipe.author_id) = true from hUpa)]

theorem C4_witness :
    (findOne (fun u => u.id == 1) wDB.users = some wAlice ∧
     findOne (fun r => r.id == 2) wDB.recipes = some wRecipe ∧
     canMutate wAlice wRecipe.author_id = true ∧
     (wDB.recipes.map Recipe.id).Nodup ∧
     findOne (fun u => u.id == wRecipe.author_id) wDB.users = some wAlice) ∧
    (∃ db', delete_recipe wDB 1 2 = .ok (db', "Recipe deleted successfully") ∧
      get_recipe db' 2 = .error ⟨404, "Recipe not found"⟩ ∧
      (∀ c ∈ db'.comments, c.recipe_id ≠ 2) ∧
      (∀ c ∈ wDB.comments, c.recipe_id ≠ 2 → c ∈ db'.comments) ∧
      (∀ l ∈ db'.likes, l.recipe_id ≠ 2) ∧
      (∀ l ∈ wDB.likes, l.recipe_id ≠ 2 → l ∈ db'.likes) ∧
      (∀ s ∈ db'.saves, s.recipe_id ≠ 2) ∧
      (∀ s ∈ wDB.saves, s.recipe_id ≠ 2 → s ∈ db'.saves) ∧
      findOne (fun u => u.id == wRecipe.author_id) db'.users
        = some { wAlice with recipes_count := wAlice.recipes_count - 1 }) :=
  ⟨⟨by decide, by decide, by decide, by decide, by decide⟩,
    C4_delete_recipe_cascades wDB 1 2 wAlice wAlice wRecipe
      (by decide) (by decide) (by decide) (by decide) (by decide)⟩

/-! ## Claim C7: purchase is idempotent -/

theorem countDocs_pos (p : α → Bool) {l : List α} {a : α}
    (ha : a ∈ l) (hpa : p a = true) : 1 ≤ countDocs p l := by
  rcases List.append_of_mem ha with ⟨s, t, rfl⟩
  rw [countDocs_split, hpa]
  simp
  omega

/-- C7: for every user and every paid recipe (with at most one existing
Purchase row for the pair, the store's uniqueness invariant),
purchasing twice yields exactly one Purchase row for the (user, recipe)
pair; both calls report purchased = true, and the second call returns
the existing success state without mutating the store. -/
theorem C7_purchase_idempotent (db : DB) (uid rid now1 now2 : Nat) (actor : User)
    (recipe : Recipe)
    (hactor : findOne (fun u => u.id == uid) db.users = some actor)
    (hrec : findOne (fun r => r.id == rid) db.recipes = some recipe)
    (hpaid : recipe.is_paid = true)
    (hcnt : countDocs (fun p => p.user_id == actor.id && p.recipe_id == rid)
      db.purchases ≤ 1) :
    ∃ db1 m1 db2 m2,
      purchase_recipe db uid rid now1 = .ok (db1, (true, m1)) ∧
      purchase_recipe db1 uid rid now2 = .ok (db2, (true, m2)) ∧
      db2 = db1 ∧
      countDocs (fun p => p.user_id == actor.id && p.recipe_id == rid) db1.purchases = 1 := by
  have hpaid' : (!recipe.is_paid) = false := by simp [hpaid]
  cases hpp : findOne (fun p => p.user_id == actor.id && p.recipe_id == rid) db.purchases with
  | some p0 =>
    have h1 : purchase_recipe db uid rid now1 = .ok (db, (true, "Already purchased")) := by
      simp only [purchase_recipe, get_current_user, hactor, hrec, hpaid', Bool.false_eq_true,
        if_false, hpp]
    have h2 : purchase_recipe db uid rid now2 = .ok (db, (true, "Already purchased")) := by
      simp only [purchase_recipe, get_current_user, hactor, hrec, hpaid', Bool.false_eq_true,
        if_false, hpp]
    obtain ⟨hp0mem, hp0match⟩ := findOne_eq_some_mem hpp
    have hge := countDocs_pos (fun q => q.user_id == actor.id && q.recipe_id == rid) hp0mem hp0match
    exact ⟨db, _, db, _, h1, h2, rfl, by omega⟩
  | none =>
    have hall := findOne_eq_none_iff.mp hpp
    have h1 : purchase_recipe db uid rid now1 = .ok
        ({ db with purchases := insertOne { id := freshId db, user_id := actor.id, recipe_id := rid, amount := recipe.price, created_at := now1 } db.purchases },
          (true, "Recipe purchased successfully")) := by
      simp only [purchase_recipe, get_current_user, hactor, hrec, hpaid', Bool.false_eq_true,
        if_false, hpp]
    have hfind2 : findOne (fun p => p.user_id == actor.id && p.recipe_id == rid)
        (insertOne { id := freshId db, user_id := actor.id, recipe_id := rid, amount := recipe.price, created_at := now1 } db.purchases)
        = some { id := freshId db, user_id := actor.id, recipe_id := rid, amount := recipe.price, created_at := now1 } := by
      rw [insertOne, findOne_append_of_none _ hpp]
      simp [findOne]
    have h2 : purchase_recipe
        ({ db with purchases := insertOne { id := freshId db, user_id := actor.id, recipe_id := rid, amount := recipe.price, created_at := now1 } db.purchases })
        uid rid now2 = .ok
        ({ db with purchases := insertOne { id := freshId db, user_id := actor.id, recipe_id := rid, amount := recipe.price, created_at := now1 } db.purchases },
          (true, "Already purchased")) := by
      simp only [purchase_recipe, get_current_user, hactor, hrec, hpaid', Bool.false_eq_true,
        if_false, hfind2]
    refine ⟨_, _, _, _, h1, h2, rfl, ?_⟩
    rw [countDocs_insertOne, countDocs_eq_zero hall]
    simp

theorem C7_witness :
    (findOne (fun u => u.id == 4) wDBP.users = some wBob ∧
     findOne (fun r => r.id == 5) wDBP.recipes = some wPaidRecipe ∧
     wPaidRecipe.is_paid = true ∧
     countDocs (fun p => p.user_id == wBob.id && p.recipe_id == 5) wDBP.purchases ≤ 1) ∧
    (∃ db1 m1 db2 m2,
      purchase_recipe wDBP 4 5 20 = .ok (db1, (true, m1)) ∧
      purchase_recipe db1 4 5 21 = .ok (db2, (true, m2)) ∧
      db2 = db1 ∧
      countDocs (fun p => p.user_id == wBob.id && p.recipe_id == 5) db1.purchases = 1) :=
  ⟨⟨by decide, by decide, by decide, by decide⟩,
    C7_purchase_idempotent wDBP 4 5 20 21 wBob wPaidRecipe
      (by decide) (by decide) (by decide) (by decide)⟩

/-- C6 counterexample: comment 11 exists but its parent recipe (id 42)
is missing, yet deleteComment by the comment's owner succeeds with 200
— it does not fail with NotFound as the claim states. -/
theorem C6_counterexample :
    findOne (fun c => c.id == 11) cDB.comments = some cOrphan ∧
    findOne (fun r => r.id == cOrphan.recipe_id) cDB.recipes = none ∧
    delete_comment cDB 1 11 =
      .ok (⟨[wAlice], [], [], [], [], [], []⟩, "Comment deleted successfully") := by
  refine ⟨by decide, by decide, ?_⟩
  rfl

/-- C6 (amended): deleteComment fails with NotFound only when the
comment itself is missing; when the comment exists and the actor is
authorized it succeeds, deleting the comment and issuing a
comments_count decrement on the parent recipe which matches zero
documents (a no-op) when the parent recipe is missing. -/
theorem C6_notfound_only_missing_comment (db : DB) (uid cid : Nat) (actor : User)
    (hactor : findOne (fun u => u.id == uid) db.users = some actor) :
    (findOne (fun c => c.id == cid) db.comments = none →
      delete_comment db uid cid = .error ⟨404, "Comment not found"⟩) ∧
    (∀ comment, findOne (fun c => c.id == cid) db.comments = some comment →
      canMutate actor comment.user_id = true →
      delete_comment db uid cid = .ok
        ({ db with
            comments := deleteOne (fun c => c.id == cid) db.comments
            recipes := updateOne (fun r => r.id == comment.recipe_id)
              (fun r => { r with comments_count := r.comments_count - 1 }) db.recipes },
          "Comment deleted successfully") ∧
      (findOne (fun r => r.id == comment.recipe_id) db.recipes = none →
        updateOne (fun r => r.id == comment.recipe_id)
          (fun r => { r with comments_count := r.comments_count - 1 }) db.recipes
          = db.recipes)) := by
  constructor
  · intro hnone
    simp only [delete_comment, get_current_user, hactor, hnone]
  · intro comment hcom hcm
    exact ⟨delete_comment_ok db uid cid actor comment hactor hcom hcm,
      fun hnone => updateOne_of_none hnone⟩

theorem C6_witness :
    findOne (fun u => u.id == 1) cDB.users = some wAlice ∧
    ((findOne (fun c => c.id == 11) cDB.comments = none →
      delete_comment cDB 1 11 = .error ⟨404, "Comment not found"⟩) ∧
    (∀ comment, findOne (fun c => c.id == 11) cDB.comments = some comment →
      canMutate wAlice comment.user_id = true →
      delete_comment cDB 1 11 = .ok
        ({ cDB with
            comments := deleteOne (fun c => c.id == 11) cDB.comments
            recipes := updateOne (fun r => r.id == comment.recipe_id)
              (fun r => { r with comments_count := r.comments_count - 1 }) cDB.recipes },
          "Comment deleted successfully") ∧
      (findOne (fun r => r.id == comment.recipe_id) cDB.recipes = none →
        updateOne (fun r => r.id == comment.recipe_id)
          (fun r => { r with comments_count := r.comments_count - 1 }) cDB.recipes
          = cDB.recipes))) :=
  ⟨by decide, C6_notfound_only_missing_comment cDB 1 11 wAlice (by decide)⟩

end CookingSecrets
